import Mathlib

/-!
Shallow embedding of the GRAG graph retrieval module of the repository
(file `src/retrieval/grag.py`): configuration validation, graph index
construction, neighbor ordering, bounded breadth-first search, and the
retrieval pipeline (seed selection, neighborhood expansion, score fusion,
candidate truncation, threshold filtering, result assembly).

Modelling conventions:
- Python floats are modelled as an arbitrary linear ordered field `α`
  (instantiated at `ℚ` for executable checks and at `ℝ` where exact
  L2 normalization, which needs square roots, is required).
- Mongo ObjectId values are modelled as `String`; the coercion helpers
  `_coerce_object_id` and `_maybe_stringify` of the source collapse to
  the identity under this modelling.
- `torch.nn.functional.normalize` divides a vector by
  `max (L2norm v) eps`; the exact real version `l2normalize` is defined
  below over `ℝ`.  The pipeline functions take the normalization
  function as an explicit parameter `normFn` so that parts of the
  algorithm whose behavior does not depend on the particular
  normalization can be stated for every `normFn`.
- Python `list.sort(key=…, reverse=True)` and `sorted(…, reverse=True)`
  are stable; `sortKeyDesc` below is a stable insertion sort by
  descending key, matching that specified behavior.
- Python `int(x)` truncates toward zero; `pyTrunc` models it.
- Python dict and set iteration is modelled with insertion-ordered
  association lists and duplicate-free insertion-ordered lists; no claim
  proved here depends on Python set iteration order.
-/

namespace Grag

/-! ### Generic vector and list helpers -/

def dotList {α : Type} [LinearOrderedField α] (u v : List α) : α :=
  (List.zipWith (fun a b => a * b) u v).sum

def sqNorm {α : Type} [LinearOrderedField α] (v : List α) : α :=
  dotList v v

def vecAdd {α : Type} [LinearOrderedField α] (u v : List α) : List α :=
  List.zipWith (fun a b => a + b) u v

/-- Mean of a family of vectors, as computed by `tensor.mean(dim=0)` on a
stacked matrix; the empty family is unreachable in the source and is
modelled as the empty vector. -/
def vecMean {α : Type} [LinearOrderedField α] (vs : List (List α)) : List α :=
  match vs with
  | [] => []
  | w :: ws => (ws.foldl vecAdd w).map (fun x => x / (((w :: ws).length : α)))

/-- Clamp from the source line `float(max(min(combined_score, 1.0), -1.0))`. -/
def pyClamp {α : Type} [LinearOrderedField α] (x : α) : α :=
  max (min x 1) (-1)

/-- Python `int(x)` on a float: truncation toward zero. -/
def pyTrunc {α : Type} [LinearOrderedField α] [FloorRing α] (x : α) : Int :=
  if 0 ≤ x then Int.floor x else -(Int.floor (-x))

/-- Stable insertion step for descending sort by key: an element is placed
before the first already placed element whose key is not larger, so
elements with equal keys keep their original relative order.  This models
the specified behavior of the stable Python sorts used in the source. -/
def insertKeyDesc {β κ : Type} [LinearOrder κ] (key : β → κ) (x : β) :
    List β → List β
  | [] => [x]
  | y :: ys => if key y ≤ key x then x :: y :: ys else y :: insertKeyDesc key x ys

def sortKeyDesc {β κ : Type} [LinearOrder κ] (key : β → κ) : List β → List β
  | [] => []
  | x :: xs => insertKeyDesc key x (sortKeyDesc key xs)

/-- Stable insertion step for ascending sort (used to model Python
`sorted(…)` on relation label sets). -/
def insertAsc {β : Type} [LinearOrder β] (x : β) : List β → List β
  | [] => [x]
  | y :: ys => if x ≤ y then x :: y :: ys else y :: insertAsc x ys

def sortAsc {β : Type} [LinearOrder β] : List β → List β
  | [] => []
  | x :: xs => insertAsc x (sortAsc xs)

/-- Models Python `str.strip()`: remove whitespace from both ends.  It is
defined over the character list so that it reduces inside the kernel
(`String.trim` of core Lean is extensionally the same but is built on
well-founded recursion that does not reduce). -/
def pyStrip (s : String) : String :=
  String.mk (((s.data.dropWhile Char.isWhitespace).reverse.dropWhile
    Char.isWhitespace).reverse)

/-- Pointwise update of a function table, modelling a tensor or dict write. -/
def updFun {β : Type} (f : Nat → β) (i : Nat) (v : β) : Nat → β :=
  fun j => if j = i then v else f j

/-- Insertion-ordered set union, modelling `candidate_indices.update(…)`. -/
def addCandidates (cands : List Nat) (xs : List Nat) : List Nat :=
  xs.foldl (fun acc v => if v ∈ acc then acc else acc ++ [v]) cands

/-- Replace-or-append insertion into an association list, modelling a
Python dict write. -/
def assocInsert {κ β : Type} [DecidableEq κ] (m : List (κ × β)) (k : κ) (v : β) :
    List (κ × β) :=
  if (m.lookup k).isSome then
    m.map (fun p => if p.1 = k then (k, v) else p)
  else m ++ [(k, v)]

/-! ### Bounded breadth-first search

Models `GraphIndex.shortest_path_lengths`, which special-cases
`cutoff == 0` and otherwise delegates to
`nx.single_source_shortest_path_length(graph, source, cutoff)`.
The adjacency structure is a list of insertion-ordered neighbor lists,
matching the networkx adjacency dictionaries. -/

/-- One breadth-first level: the nodes adjacent to the frontier that were
not visited yet, in first-discovery order, without duplicates. -/
def bfsStep (adj : List (List Nat)) (visited frontier : List Nat) : List Nat :=
  (frontier.foldl (fun acc u => acc ++ adj.getD u []) []).foldl
    (fun acc v => if v ∈ visited ∨ v ∈ acc then acc else acc ++ [v]) []

def bfsAux (adj : List (List Nat)) :
    Nat → List Nat → List Nat → Nat → List (Nat × Nat)
  | 0, _, _, _ => []
  | Nat.succ fuel, visited, frontier, d =>
    let nf := bfsStep adj visited frontier
    if nf = [] then []
    else nf.map (fun v => (v, d + 1)) ++ bfsAux adj fuel (visited ++ nf) nf (d + 1)

/-- Hop distances from `sourceIndex` up to `cutoff` hops, as an association
list in breadth-first discovery order; the source always appears with
distance `0`. -/
def shortestPathLengths (adj : List (List Nat)) (sourceIndex : Nat)
    (cutoff : Nat) : List (Nat × Nat) :=
  if cutoff = 0 then [(sourceIndex, 0)]
  else (sourceIndex, 0) :: bfsAux adj cutoff [sourceIndex] [sourceIndex] 0

/-! ### Configuration

Models the frozen dataclass `GragConfig` together with the validation in
`__post_init__`.  Integer fields keep type `Int` because Python accepts
negative ints up to validation; the score type is `α`. -/

structure GragConfig (α : Type) where
  hops : Int
  seedTopK : Int
  candidateMultiplier : α
  nodeWeight : α
  subgraphWeight : α
  hopDecay : α
  cacheTtlSeconds : Option α
  maxContextNeighbors : Int
  debugLogging : Bool
deriving Repr

/-- Construction of a `GragConfig`, performing the checks of
`GragConfig.__post_init__` in source order; a raised `ValueError` is
modelled as `Except.error` with the source message. -/
def mkGragConfig {α : Type} [LinearOrderedField α]
    (hops seedTopK : Int) (candidateMultiplier nodeWeight subgraphWeight
    hopDecay : α) (cacheTtlSeconds : Option α) (maxContextNeighbors : Int)
    (debugLogging : Bool) : Except String (GragConfig α) :=
  if hops < 0 then Except.error "hops must be non-negative"
  else if seedTopK ≤ 0 then Except.error "seed_top_k must be positive"
  else if candidateMultiplier < 1 then
    Except.error "candidate_multiplier must be >= 1.0"
  else if ¬ (0 ≤ nodeWeight ∧ nodeWeight ≤ 1) then
    Except.error "node_weight must be in [0, 1]"
  else if ¬ (0 ≤ subgraphWeight ∧ subgraphWeight ≤ 1) then
    Except.error "subgraph_weight must be in [0, 1]"
  else if nodeWeight + subgraphWeight = 0 then
    Except.error "node_weight and subgraph_weight cannot both be 0"
  else if ¬ (0 < hopDecay ∧ hopDecay ≤ 1) then
    Except.error "hop_decay must be in (0, 1]"
  else if maxContextNeighbors < 0 then
    Except.error "max_context_neighbors must be >= 0"
  else Except.ok
    { hops := hops, seedTopK := seedTopK,
      candidateMultiplier := candidateMultiplier, nodeWeight := nodeWeight,
      subgraphWeight := subgraphWeight, hopDecay := hopDecay,
      cacheTtlSeconds := cacheTtlSeconds,
      maxContextNeighbors := maxContextNeighbors, debugLogging := debugLogging }

/-! ### Data model -/

/-- Models the dataclass `GraphNode`.  The `attributes` payload entries are
modelled as name and value pairs; their content is never inspected by the
algorithm. -/
structure GraphNode where
  index : Nat
  objectIdStr : String
  nodeid : String
  text : String
  richText : String
  notes : String
  links : List String
  attrs : List (String × String)
  category : Option String
  parentId : Option String
  childrenIds : List String
  linkedIds : List String
deriving Repr, DecidableEq

instance : Inhabited GraphNode :=
  ⟨{ index := 0, objectIdStr := "", nodeid := "", text := "", richText := "",
     notes := "", links := [], attrs := [], category := none,
     parentId := none, childrenIds := [], linkedIds := [] }⟩

/-- Models one MongoDB document as projected by `GraphIndex._PROJECTION`.
ObjectId values are modelled as strings; absent fields as `none`. -/
structure StoreDoc (α : Type) where
  oid : String
  nodeid : Option String
  text : Option String
  richText : Option String
  notes : Option String
  links : List String
  attrs : List (String × String)
  embedding : Option (List α)
  parentID : Option String
  children : List String
  linkedNodes : List String
  category : Option String
deriving Repr

/-- Models the state held by a built `GraphIndex`: the node records, the
row-normalized embedding matrix, the networkx adjacency structure
(insertion-ordered neighbor lists), the edge relation label map, the
established embedding dimensionality, and the `_stats` counters. -/
structure GraphIndexData (α : Type) where
  nodes : List GraphNode
  matrix : List (List α)
  adj : List (List Nat)
  edgeRel : List ((Nat × Nat) × List String)
  embDim : Option Nat
  statsTotalNodes : Nat
  statsTotalEdges : Nat
deriving Repr

/-! ### Index construction

Models `GraphIndex._build_index` and its helpers.  The Mongo cursor is a
list of documents in arrival order; only documents carrying a non-empty
one-dimensional embedding of the established dimensionality are indexed. -/

structure BuildState (α : Type) where
  nodes : List GraphNode
  rows : List (List α)
  idToIndex : List (String × Nat)
  nodeidToIndex : List (String × Nat)
  relQueue : List (String × String × String)
  embDim : Option Nat

def initBuildState {α : Type} : BuildState α :=
  { nodes := [], rows := [], idToIndex := [], nodeidToIndex := [],
    relQueue := [], embDim := none }

/-- Models `GraphIndex._collect_relations`: pending structural relations of
one document, as (source id, target id, relation label) triples.  Python
truthiness of a coerced reference is modelled as a non-empty string. -/
def collectRelations {α : Type} (d : StoreDoc α) :
    List (String × String × String) :=
  (match d.parentID with
   | some p => if p ≠ "" then [(d.oid, p, "hierarchy")] else []
   | none => []) ++
  d.children.filterMap
    (fun c => if c ≠ "" then some (d.oid, c, "hierarchy") else none) ++
  d.linkedNodes.filterMap
    (fun l => if l ≠ "" then some (d.oid, l, "link") else none)

/-- Accept one eligible document into the build state: assign the next
dense index, record both id maps, stash the raw embedding row and the
pending relations. -/
def acceptDoc {α : Type} (st : BuildState α) (d : StoreDoc α) (v : List α)
    (dim : Option Nat) : BuildState α :=
  let nodeIndex := st.nodes.length
  let nodeid := match d.nodeid with
    | some s => if s = "" then d.oid else s
    | none => d.oid
  let node : GraphNode :=
    { index := nodeIndex, objectIdStr := d.oid, nodeid := nodeid,
      text := pyStrip (d.text.getD ""), richText := pyStrip (d.richText.getD ""),
      notes := pyStrip (d.notes.getD ""), links := d.links, attrs := d.attrs,
      category := d.category, parentId := d.parentID,
      childrenIds := d.children, linkedIds := d.linkedNodes }
  { nodes := st.nodes ++ [node], rows := st.rows ++ [v],
    idToIndex := assocInsert st.idToIndex d.oid nodeIndex,
    nodeidToIndex := assocInsert st.nodeidToIndex nodeid nodeIndex,
    relQueue := st.relQueue ++ collectRelations d,
    embDim := dim }

/-- One iteration of the cursor loop in `_build_index`: skip documents with
an absent or empty embedding (Python `if not embedding`), establish the
dimensionality from the first valid vector, and skip mismatched vectors
with a warning. -/
def buildStep {α : Type} (st : BuildState α) (d : StoreDoc α) : BuildState α :=
  match d.embedding with
  | none => st
  | some v =>
    if v.isEmpty then st
    else
      match st.embDim with
      | none => acceptDoc st d v (some v.length)
      | some dD => if v.length ≠ dD then st else acceptDoc st d v (some dD)

/-- Models `GraphIndex._resolve_index`: a reference resolves through the
id map first, then through the nodeid map. -/
def resolveIndex (idTo nodeidTo : List (String × Nat)) (ref : String) :
    Option Nat :=
  match idTo.lookup ref with
  | some i => some i
  | none => nodeidTo.lookup ref

/-- Models `GraphIndex._bind_relation`: drop unresolvable or
self-referential relations, merge the relation label into the edge label
set, and add the undirected edge to the adjacency structure if absent. -/
def bindRelation (idTo nodeidTo : List (String × Nat))
    (g : List (List Nat) × List ((Nat × Nat) × List String))
    (r : String × String × String) :
    List (List Nat) × List ((Nat × Nat) × List String) :=
  match resolveIndex idTo nodeidTo r.1, resolveIndex idTo nodeidTo r.2.1 with
  | some si, some di =>
    if si = di then g
    else
      let key := (min si di, max si di)
      let labels := (g.2.lookup key).getD []
      let labels2 := if r.2.2 ∈ labels then labels else labels ++ [r.2.2]
      let er := assocInsert g.2 key labels2
      if di ∈ g.1.getD si [] then (g.1, er)
      else
        let a1 := g.1.set si (g.1.getD si [] ++ [di])
        let a2 := a1.set di (a1.getD di [] ++ [si])
        (a2, er)
  | _, _ => g

/-- Number of undirected edges, as reported by
`graph.number_of_edges()`. -/
def edgeCountOf (adj : List (List Nat)) : Nat :=
  (adj.map List.length).sum / 2

/-- Models `GraphIndex._build_index` run on a cursor of documents: the
zero-node case yields a valid empty index with zeroed statistics;
otherwise the stacked rows are L2-normalized with `normFn`, the graph
receives one node per record and the queued relations are bound in
order. -/
def buildIndex {α : Type} (normFn : List α → List α)
    (docs : List (StoreDoc α)) : GraphIndexData α :=
  let st := docs.foldl buildStep (initBuildState (α := α))
  if st.nodes = [] then
    { nodes := [], matrix := [], adj := [], edgeRel := [], embDim := st.embDim,
      statsTotalNodes := 0, statsTotalEdges := 0 }
  else
    let g := st.relQueue.foldl (bindRelation st.idToIndex st.nodeidToIndex)
      (List.replicate st.nodes.length [], [])
    { nodes := st.nodes, matrix := st.rows.map normFn, adj := g.1,
      edgeRel := g.2, embDim := st.embDim,
      statsTotalNodes := st.nodes.length, statsTotalEdges := edgeCountOf g.1 }

/-! ### Public GraphIndex operations -/

/-- Models `GraphIndex.get_node`, which is a plain Python list access
`self._nodes[index]`: non-negative positions and negative positions down
to `-len` succeed, anything else raises an IndexError. -/
def getNode {α : Type} (idx : GraphIndexData α) (i : Int) :
    Except String GraphNode :=
  if 0 ≤ i ∧ i < (idx.nodes.length : Int) then
    Except.ok (idx.nodes.getD i.toNat default)
  else if -(idx.nodes.length : Int) ≤ i ∧ i < 0 then
    Except.ok (idx.nodes.getD ((idx.nodes.length : Int) + i).toNat default)
  else Except.error "list index out of range"

def degreeOf (adj : List (List Nat)) (i : Nat) : Nat :=
  (adj.getD i []).length

/-- Models `GraphIndex.sorted_neighbors`: the networkx neighbor list of a
node (edge-insertion order) stably sorted by descending degree. -/
def sortedNeighbors {α : Type} (idx : GraphIndexData α) (i : Nat) : List Nat :=
  sortKeyDesc (fun j => degreeOf idx.adj j) (idx.adj.getD i [])

structure NeighborSummary where
  nodeid : String
  relations : List String
deriving Repr, DecidableEq

def relationKey (i j : Nat) : Nat × Nat := (min i j, max i j)

/-- Models `GraphIndex.describe_relations`: neighbor summaries for the
first `limit` entries of `sorted_neighbors`, each carrying the sorted
relation label set of the connecting edge. -/
def describeRelations {α : Type} (idx : GraphIndexData α) (i : Nat)
    (limit : Option Nat) : List NeighborSummary :=
  let ns := sortedNeighbors idx i
  let ns2 := match limit with
    | none => ns
    | some l => ns.take l
  ns2.map (fun j =>
    { nodeid := (idx.nodes.getD j default).nodeid,
      relations := sortAsc ((idx.edgeRel.lookup (relationKey i j)).getD []) })

/-! ### Retrieval pipeline

Models `GragRetriever.retrieve` and its helpers, lines 443 to 525 of the
source.  The embedding collaborator is a function from the trimmed query
string to an optional tensor; a tensor is modelled by its shape and its
flattened data. -/

structure PyTensor (α : Type) where
  shape : List Nat
  data : List α
deriving Repr, DecidableEq

/-- Models the context dictionary recorded per candidate node.  The
`neighbors` key is only attached during result assembly. -/
structure GragCtx (α : Type) where
  seedNode : String
  hopDistance : Nat
  subgraphScore : α
  localSimilarity : α
  neighbors : Option (List NeighborSummary)
deriving Repr, DecidableEq

/-- Models one result record.  The payload dictionary of the source copies
the fields of the node record, kept here as the whole `node`; `nodeIdx`
is bookkeeping recording which dense index produced the record (it equals
`node.index` for indexes produced by `buildIndex`). -/
structure ResultEntry (α : Type) where
  nodeIdx : Nat
  node : GraphNode
  score : α
  context : GragCtx α
deriving Repr, DecidableEq

/-- Models `GragRetriever._embed_query`: fail when the collaborator
returns nothing, when the tensor is not one-dimensional, or when its
length differs from the index dimensionality; otherwise L2-normalize. -/
def embedQuery {α : Type} [LinearOrderedField α] (normFn : List α → List α)
    (out : Option (PyTensor α)) (expectedDim : Nat) :
    Except String (List α) :=
  match out with
  | none => Except.error "Embedding function returned None"
  | some t =>
    if t.shape.length ≠ 1 then
      Except.error "Query embedding must be one-dimensional"
    else if t.shape.headD 0 ≠ expectedDim then
      Except.error "Query embedding dimension does not match index dimension"
    else Except.ok (normFn t.data)

/-- Local similarities: `torch.matmul(index.node_embeddings, query_vector)`,
one dot product per matrix row. -/
def localSims {α : Type} [LinearOrderedField α] (idx : GraphIndexData α)
    (qv : List α) : List α :=
  idx.matrix.map (fun row => dotList row qv)

def localSimAt {α : Type} [LinearOrderedField α] (idx : GraphIndexData α)
    (qv : List α) (i : Nat) : α :=
  (localSims idx qv).getD i 0

/-- Seed selection: `torch.topk` over the local similarities with
`k = min(num_nodes, max(top_k, seed_top_k))`, modelled as a stable
descending sort of all node indices followed by a prefix.  (torch leaves
tie order unspecified; the stable choice breaks ties by ascending index
and no theorem below depends on the tie order.) -/
def seedIndicesOf {α : Type} [LinearOrderedField α] (cfg : GragConfig α)
    (idx : GraphIndexData α) (qv : List α) (topK : Nat) : List Nat :=
  let seedCount := min idx.nodes.length (max topK cfg.seedTopK.toNat)
  (sortKeyDesc (localSimAt idx qv) (List.range idx.nodes.length)).take seedCount

/-- Running state of the seed expansion loop: the best combined score per
node (initialized to -1) and the recorded provenance context. -/
structure ScoreState (α : Type) where
  scores : Nat → α
  ctx : Nat → Option (GragCtx α)

/-- Contribution of one seed to the combined score of a node at hop
distance `h`: the term `subgraph_weight * subgraph_score * hop_decay ** h`
from the fusion formula (applied whenever `hops > 0`). -/
def seedContribution {α : Type} [LinearOrderedField α] (cfg : GragConfig α)
    (subgraphScore : α) (h : Nat) : α :=
  cfg.subgraphWeight * subgraphScore * cfg.hopDecay ^ h

/-- One iteration of the inner scoring loop of `retrieve`: fuse the local
similarity with the decayed subgraph score, clamp, and keep the best
score and its provenance per node (strict improvement only). -/
def scoreStep {α : Type} [LinearOrderedField α] (cfg : GragConfig α)
    (idx : GraphIndexData α) (qv : List α) (sscore : α) (s : Nat)
    (st : ScoreState α) (p : Nat × Nat) : ScoreState α :=
  let nodeScore := localSimAt idx qv p.1
  let hopFactor := if 0 < cfg.hops then cfg.hopDecay ^ p.2 else 1
  let combined := pyClamp
    (cfg.nodeWeight * nodeScore + cfg.subgraphWeight * sscore * hopFactor)
  if st.scores p.1 < combined then
    { scores := updFun st.scores p.1 combined,
      ctx := updFun st.ctx p.1 (some
        { seedNode := (idx.nodes.getD s default).nodeid,
          hopDistance := p.2, subgraphScore := sscore,
          localSimilarity := nodeScore, neighbors := none }) }
  else st

/-- Hop distances used for one seed, including the defensive guard of the
source that inserts the seed at distance 0 when absent. -/
def seedDistances {α : Type} (cfg : GragConfig α) (idx : GraphIndexData α)
    (s : Nat) : List (Nat × Nat) :=
  let spl := shortestPathLengths idx.adj s cfg.hops.toNat
  if (spl.lookup s).isNone then spl ++ [(s, 0)] else spl

/-- One iteration of the outer seed loop: expand the bounded neighborhood,
accumulate candidates, compute the subgraph embedding and score, and run
the inner scoring loop. -/
def processSeed {α : Type} [LinearOrderedField α] (normFn : List α → List α)
    (cfg : GragConfig α) (idx : GraphIndexData α) (qv : List α)
    (acc : ScoreState α × List Nat) (s : Nat) : ScoreState α × List Nat :=
  let dists := seedDistances cfg idx s
  let subNodes := dists.map Prod.fst
  let cands := addCandidates acc.2 subNodes
  let subEmb := normFn (vecMean (subNodes.map (fun i => idx.matrix.getD i [])))
  let sscore := dotList subEmb qv
  (dists.foldl (scoreStep cfg idx qv sscore s) acc.1, cands)

def candidateStateOf {α : Type} [LinearOrderedField α]
    (normFn : List α → List α) (cfg : GragConfig α) (idx : GraphIndexData α)
    (qv : List α) (topK : Nat) : ScoreState α × List Nat :=
  (seedIndicesOf cfg idx qv topK).foldl (processSeed normFn cfg idx qv)
    (⟨fun _ => -1, fun _ => none⟩, [])

/-- Candidate set accumulated during seed expansion (insertion order). -/
def candidatesOf {α : Type} [LinearOrderedField α]
    (normFn : List α → List α) (cfg : GragConfig α) (idx : GraphIndexData α)
    (qv : List α) (topK : Nat) : List Nat :=
  (candidateStateOf normFn cfg idx qv topK).2

/-- Scores after the similarity floor loop: every candidate is raised to
at least its local similarity. -/
def flooredScoresOf {α : Type} [LinearOrderedField α]
    (normFn : List α → List α) (cfg : GragConfig α) (idx : GraphIndexData α)
    (qv : List α) (topK : Nat) : Nat → α :=
  let stc := candidateStateOf normFn cfg idx qv topK
  stc.2.foldl
    (fun sc i =>
      if sc i < localSimAt idx qv i then updFun sc i (localSimAt idx qv i)
      else sc)
    stc.1.scores

/-- Candidate set after the disconnected-case fallback of the source:
when no neighborhood produced any candidate, re-seed from the seed
list. -/
def finalCandidatesOf {α : Type} [LinearOrderedField α]
    (normFn : List α → List α) (cfg : GragConfig α) (idx : GraphIndexData α)
    (qv : List α) (topK : Nat) : List Nat :=
  let c := candidatesOf normFn cfg idx qv topK
  if c.isEmpty then addCandidates [] (seedIndicesOf cfg idx qv topK) else c

/-- Scores after the fallback branch: in the disconnected case every seed
is scored by its local similarity. -/
def finalScoresOf {α : Type} [LinearOrderedField α]
    (normFn : List α → List α) (cfg : GragConfig α) (idx : GraphIndexData α)
    (qv : List α) (topK : Nat) : Nat → α :=
  let c := candidatesOf normFn cfg idx qv topK
  let fl := flooredScoresOf normFn cfg idx qv topK
  if c.isEmpty then
    (seedIndicesOf cfg idx qv topK).foldl
      (fun sc i => updFun sc i (localSimAt idx qv i)) fl
  else fl

/-- Candidate cap from the source line
`min(index.num_nodes, int(max(top_k, top_k * candidate_multiplier)))`:
Python `int` truncates toward zero. -/
def maxCandidatesOf {α : Type} [LinearOrderedField α] [FloorRing α]
    (cfg : GragConfig α) (numNodes topK : Nat) : Nat :=
  min numNodes
    (pyTrunc (max (topK : α) ((topK : α) * cfg.candidateMultiplier))).toNat

/-- Candidates ordered by descending final score, truncated to the
candidate cap, before any threshold filtering. -/
def orderedCandidatesOf {α : Type} [LinearOrderedField α] [FloorRing α]
    (normFn : List α → List α) (cfg : GragConfig α) (idx : GraphIndexData α)
    (qv : List α) (topK : Nat) : List Nat :=
  (sortKeyDesc (finalScoresOf normFn cfg idx qv topK)
    (finalCandidatesOf normFn cfg idx qv topK)).take
    (maxCandidatesOf cfg idx.nodes.length topK)

/-- Result record assembly for one surviving candidate, including the
default context for nodes whose provenance was never recorded and the
optional neighbor summaries. -/
def assembleEntry {α : Type} [LinearOrderedField α]
    (normFn : List α → List α) (cfg : GragConfig α) (idx : GraphIndexData α)
    (qv : List α) (topK : Nat) (i : Nat) : ResultEntry α :=
  let node := idx.nodes.getD i default
  let baseCtx := ((candidateStateOf normFn cfg idx qv topK).1.ctx i).getD
    { seedNode := node.nodeid, hopDistance := 0,
      subgraphScore := localSimAt idx qv i,
      localSimilarity := localSimAt idx qv i, neighbors := none }
  let nbrs := describeRelations idx i (some cfg.maxContextNeighbors.toNat)
  let ctx := if 0 < cfg.maxContextNeighbors then
      { baseCtx with neighbors := some nbrs }
    else baseCtx
  { nodeIdx := i, node := node,
    score := finalScoresOf normFn cfg idx qv topK i, context := ctx }

/-- The post-embedding part of `retrieve` (source lines 452 to 525):
threshold filtering of the truncated candidate list, record assembly, and
the final stable sort and top-k cut. -/
def retrieveCore {α : Type} [LinearOrderedField α] [FloorRing α]
    (normFn : List α → List α) (cfg : GragConfig α) (idx : GraphIndexData α)
    (qv : List α) (topK : Nat) (threshold : α) : List (ResultEntry α) :=
  let entries := (orderedCandidatesOf normFn cfg idx qv topK).filterMap
    (fun i =>
      if finalScoresOf normFn cfg idx qv topK i < threshold then none
      else some (assembleEntry normFn cfg idx qv topK i))
  (sortKeyDesc (fun r : ResultEntry α => r.score) entries).take topK

/-- Models `GragRetriever.retrieve`: precondition checks, the empty-index
early return, query embedding, then the core pipeline. -/
def retrieve {α : Type} [LinearOrderedField α] [FloorRing α]
    (normFn : List α → List α) (embedFn : String → Option (PyTensor α))
    (cfg : GragConfig α) (idx : GraphIndexData α) (query : String)
    (topK : Nat) (threshold : α) : Except String (List (ResultEntry α)) :=
  let q := pyStrip query
  if q = "" then Except.error "Query must be a non-empty string"
  else if idx.nodes.length = 0 then Except.ok []
  else
    match idx.embDim with
    | none => Except.error "Graph index has no embeddings."
    | some dD =>
      match embedQuery normFn (embedFn q) dD with
      | Except.error e => Except.error e
      | Except.ok qv => Except.ok (retrieveCore normFn cfg idx qv topK threshold)

/-- Result list of a retrieval outcome; an error carries no results. -/
def resultsOf {α : Type} (r : Except String (List (ResultEntry α))) :
    List (ResultEntry α) :=
  match r with
  | Except.ok rs => rs
  | Except.error _ => []

/-- The normalized query vector a successful `retrieve` call works with;
the empty vector on any failure path. -/
def queryVecOf {α : Type} [LinearOrderedField α] (normFn : List α → List α)
    (embedFn : String → Option (PyTensor α)) (idx : GraphIndexData α)
    (query : String) : List α :=
  match idx.embDim with
  | none => []
  | some dD =>
    match embedQuery normFn (embedFn (pyStrip query)) dD with
    | Except.ok v => v
    | Except.error _ => []

/-- Exact real model of `torch.nn.functional.normalize(v, dim=…)` with the
eps of the source: division by `max (L2 norm) (1e-12)`. -/
noncomputable def l2normalize (v : List ℝ) : List ℝ :=
  v.map (fun x => x / max (Real.sqrt (sqNorm v)) (1 / 10 ^ 12))

/-! ### Definitions following the claim wording

These two definitions follow the words of the specification, not the
source; they exist only to be compared against the source-derived
definitions above. -/

/-- Modelled from the claim wording for comparison: neighbor ordering by
descending degree with ties broken by ascending neighbor index.  Distinct
neighbor indices make this order total, so the insertion sort below
produces the unique such ordering. -/
def specInsertDegAscTie (deg : Nat → Nat) (x : Nat) : List Nat → List Nat
  | [] => [x]
  | y :: ys =>
    if deg y < deg x ∨ (deg y = deg x ∧ x < y) then x :: y :: ys
    else y :: specInsertDegAscTie deg x ys

def specSortedNeighborsAscTie {α : Type} (idx : GraphIndexData α) (i : Nat) :
    List Nat :=
  (idx.adj.getD i []).foldr (specInsertDegAscTie (degreeOf idx.adj)) []

/-- Modelled from the claim wording for comparison: the candidate cap
`min(node_count, max(top_k, round(top_k * candidate_multiplier)))` with
rounding to the nearest integer. -/
def specRoundCandidateCap {α : Type} [LinearOrderedField α] [FloorRing α]
    (cfg : GragConfig α) (numNodes topK : Nat) : Nat :=
  min numNodes (max topK (round ((topK : α) * cfg.candidateMultiplier)).toNat)

/-! ### Concrete instances

Small document collections used to evaluate the embedding on explicit
inputs.  `mkDoc` fills the payload fields that no claim inspects. -/

def mkDoc (oid : String) (nid : Option String) (emb : Option (List ℚ))
    (parent : Option String) (children linked : List String) : StoreDoc ℚ :=
  { oid := oid, nodeid := nid, text := some "payload text", richText := none,
    notes := none, links := [], attrs := [], embedding := emb,
    parentID := parent, children := children, linkedNodes := linked,
    category := none }

/-- Three documents: the first cross-links to the third, the second has
the first as parent.  The relation queue binds edge (0,2) before edge
(1,0), so the adjacency list of node 0 is [2, 1] in insertion order. -/
def exDocs : List (StoreDoc ℚ) :=
  [ mkDoc "a" (some "A") (some [1, 0, 0]) none [] ["c"],
    mkDoc "b" (some "B") (some [0, 1, 0]) (some "a") [] [],
    mkDoc "c" (some "C") (some [0, 0, 1]) none [] [] ]

def exIdx : GraphIndexData ℚ := buildIndex id exDocs

/-- Source default configuration values. -/
def cfgEx : GragConfig ℚ :=
  { hops := 2, seedTopK := 24, candidateMultiplier := 3, nodeWeight := 6/10,
    subgraphWeight := 4/10, hopDecay := 3/4, cacheTtlSeconds := some 900,
    maxContextNeighbors := 6, debugLogging := false }

def embedFnGood : String → Option (PyTensor ℚ) :=
  fun _ => some { shape := [3], data := [1, 0, 0] }

def embedFnNone : String → Option (PyTensor ℚ) := fun _ => none

def embedFnBadShape : String → Option (PyTensor ℚ) :=
  fun _ => some { shape := [1, 2], data := [1, 0] }

def embedFnWrongDim : String → Option (PyTensor ℚ) :=
  fun _ => some { shape := [2], data := [1, 0] }

/-- Five documents in a star: node 0 cross-links to all others. -/
def starDocs : List (StoreDoc ℚ) :=
  [ mkDoc "n0" (some "N0") (some [1, 0, 0, 0, 0]) none [] ["n1", "n2", "n3", "n4"],
    mkDoc "n1" (some "N1") (some [0, 1, 0, 0, 0]) none [] [],
    mkDoc "n2" (some "N2") (some [0, 0, 1, 0, 0]) none [] [],
    mkDoc "n3" (some "N3") (some [0, 0, 0, 1, 0]) none [] [],
    mkDoc "n4" (some "N4") (some [0, 0, 0, 0, 1]) none [] [] ]

def starIdx : GraphIndexData ℚ := buildIndex id starDocs

/-- Configuration with candidate multiplier 1.2, exercising the gap
between truncation and rounding of `top_k * candidate_multiplier`. -/
def cfgStar : GragConfig ℚ :=
  { hops := 1, seedTopK := 1, candidateMultiplier := 6/5, nodeWeight := 6/10,
    subgraphWeight := 4/10, hopDecay := 3/4, cacheTtlSeconds := none,
    maxContextNeighbors := 6, debugLogging := false }

/-- Query vector giving the five star nodes distinct local similarities. -/
def qvStar : List ℚ := [9/10, 4/5, 7/10, 3/5, 1/2]

/-- One document with no embedding: not eligible for indexing. -/
def noEmbDocs : List (StoreDoc ℚ) :=
  [ mkDoc "z" (some "Z") none none [] [] ]

/-! ### Lemmas about the stable descending sort -/

theorem insertKeyDesc_perm {β κ : Type} [LinearOrder κ] (key : β → κ) (x : β)
    (l : List β) : (insertKeyDesc key x l).Perm (x :: l) := by
  induction l with
  | nil => simp [insertKeyDesc]
  | cons y ys ih =>
    by_cases h : key y ≤ key x
    · simp [insertKeyDesc, h]
    · simp only [insertKeyDesc, if_neg h]
      exact ((ih.cons y).trans (List.Perm.swap x y ys))

theorem sortKeyDesc_perm {β κ : Type} [LinearOrder κ] (key : β → κ)
    (l : List β) : (sortKeyDesc key l).Perm l := by
  induction l with
  | nil => simp [sortKeyDesc]
  | cons x xs ih =>
    exact (insertKeyDesc_perm key x (sortKeyDesc key xs)).trans (ih.cons x)

theorem mem_sortKeyDesc {β κ : Type} [LinearOrder κ] (key : β → κ)
    (l : List β) (a : β) : a ∈ sortKeyDesc key l ↔ a ∈ l :=
  (sortKeyDesc_perm key l).mem_iff

theorem sortKeyDesc_length {β κ : Type} [LinearOrder κ] (key : β → κ)
    (l : List β) : (sortKeyDesc key l).length = l.length :=
  (sortKeyDesc_perm key l).length_eq

theorem insertKeyDesc_pairwise {β κ : Type} [LinearOrder κ] (key : β → κ)
    (x : β) (l : List β)
    (h : l.Pairwise (fun a b => key b ≤ key a)) :
    (insertKeyDesc key x l).Pairwise (fun a b => key b ≤ key a) := by
  induction l with
  | nil => simp [insertKeyDesc]
  | cons y ys ih =>
    rcases List.pairwise_cons.mp h with ⟨hy, hys⟩
    by_cases hxy : key y ≤ key x
    · simp only [insertKeyDesc, if_pos hxy]
      refine List.pairwise_cons.mpr ⟨?_, h⟩
      intro z hz
      rcases List.mem_cons.mp hz with rfl | hz
      · exact hxy
      · exact (hy z hz).trans hxy
    · simp only [insertKeyDesc, if_neg hxy]
      refine List.pairwise_cons.mpr ⟨?_, ih hys⟩
      intro z hz
      have hz2 : z ∈ x :: ys := (insertKeyDesc_perm key x ys).mem_iff.mp hz
      rcases List.mem_cons.mp hz2 with rfl | hz2
      · exact (not_le.mp hxy).le
      · exact hy z hz2

theorem sortKeyDesc_pairwise {β κ : Type} [LinearOrder κ] (key : β → κ)
    (l : List β) :
    (sortKeyDesc key l).Pairwise (fun a b => key b ≤ key a) := by
  induction l with
  | nil => simp [sortKeyDesc]
  | cons x xs ih => exact insertKeyDesc_pairwise key x _ ih

/-- Stability of the insertion step: the sublist of elements with any
fixed key value is unchanged. -/
theorem insertKeyDesc_filter {β κ : Type} [LinearOrder κ] (key : β → κ)
    (x : β) (l : List β) (k : κ) :
    (insertKeyDesc key x l).filter (fun z => key z = k)
      = (x :: l).filter (fun z => key z = k) := by
  induction l with
  | nil => simp [insertKeyDesc]
  | cons y ys ih =>
    by_cases hxy : key y ≤ key x
    · simp [insertKeyDesc, hxy]
    · have hlt : key x < key y := not_le.mp hxy
      simp only [insertKeyDesc, if_neg hxy]
      by_cases hx : key x = k
      · have hy : ¬ (key y = k) := by
          intro hyk
          exact absurd (hx.trans hyk.symm) (ne_of_lt hlt)
        simp only [List.filter_cons]
        simp only [decide_eq_true_eq, hx, hy, if_true, if_false]
        have := ih
        simp only [List.filter_cons, decide_eq_true_eq, hx, if_true] at this
        simpa [List.filter_cons, decide_eq_true_eq, hy] using this
      · simp only [List.filter_cons]
        simp only [decide_eq_true_eq, hx, if_false]
        have := ih
        simp only [List.filter_cons, decide_eq_true_eq, hx, if_false] at this
        by_cases hy : key y = k
        · simpa [List.filter_cons, decide_eq_true_eq, hy] using this
        · simpa [List.filter_cons, decide_eq_true_eq, hy] using this

/-- Stability of the sort: elements with equal keys keep their original
relative order. -/
theorem sortKeyDesc_filter {β κ : Type} [LinearOrder κ] (key : β → κ)
    (l : List β) (k : κ) :
    (sortKeyDesc key l).filter (fun z => key z = k)
      = l.filter (fun z => key z = k) := by
  induction l with
  | nil => simp [sortKeyDesc]
  | cons x xs ih =>
    have h1 := insertKeyDesc_filter key x (sortKeyDesc key xs) k
    simp only [sortKeyDesc, h1, List.filter_cons]
    by_cases hx : key x = k
    · simp [decide_eq_true_eq, hx, ih]
    · simp [decide_eq_true_eq, hx, ih]

/-! ### Lemmas about candidate accumulation and score tables -/

theorem mem_addCandidates (cands xs : List Nat) (a : Nat) :
    a ∈ addCandidates cands xs ↔ a ∈ cands ∨ a ∈ xs := by
  induction xs generalizing cands with
  | nil => simp [addCandidates]
  | cons y ys ih =>
    simp only [addCandidates, List.foldl_cons] at *
    by_cases hy : y ∈ cands
    · rw [if_pos hy, ih]
      constructor
      · rintro (h | h)
        · exact Or.inl h
        · exact Or.inr (List.mem_cons_of_mem y h)
      · rintro (h | h)
        · exact Or.inl h
        · rcases List.mem_cons.mp h with rfl | h
          · exact Or.inl hy
          · exact Or.inr h
    · rw [if_neg hy, ih]
      simp only [List.mem_append, List.mem_singleton, List.mem_cons]
      tauto

theorem addCandidates_ne_nil_of_mem (cands xs : List Nat) (a : Nat)
    (h : a ∈ cands ∨ a ∈ xs) : addCandidates cands xs ≠ [] := by
  intro hnil
  have := (mem_addCandidates cands xs a).mpr h
  rw [hnil] at this
  exact List.not_mem_nil a this

theorem updFun_same {β : Type} (f : Nat → β) (i : Nat) (v : β) :
    updFun f i v i = v := by
  simp [updFun]

theorem updFun_other {β : Type} (f : Nat → β) (i j : Nat) (v : β)
    (h : j ≠ i) : updFun f i v j = f j := by
  simp [updFun, h]

/-- The floor fold never lowers an entry. -/
theorem floorFold_ge_self {α : Type} [LinearOrderedField α] (sim : Nat → α)
    (l : List Nat) (s : Nat → α) (i : Nat) :
    s i ≤ (l.foldl
      (fun sc j => if sc j < sim j then updFun sc j (sim j) else sc) s) i := by
  induction l generalizing s with
  | nil => exact le_refl _
  | cons j js ih =>
    simp only [List.foldl_cons]
    refine le_trans ?_ (ih _)
    by_cases hj : s j < sim j
    · rw [if_pos hj]
      by_cases hij : i = j
      · subst hij
        rw [updFun_same]
        exact hj.le
      · rw [updFun_other _ _ _ _ hij]
    · rw [if_neg hj]

/-- After the floor fold, every processed index is at least its local
similarity. -/
theorem floorFold_ge_sim {α : Type} [LinearOrderedField α] (sim : Nat → α)
    (l : List Nat) (s : Nat → α) (i : Nat) (hi : i ∈ l) :
    sim i ≤ (l.foldl
      (fun sc j => if sc j < sim j then updFun sc j (sim j) else sc) s) i := by
  induction l generalizing s with
  | nil => exact absurd hi (List.not_mem_nil i)
  | cons j js ih =>
    simp only [List.foldl_cons]
    rcases List.mem_cons.mp hi with rfl | hi2
    · refine le_trans ?_ (floorFold_ge_self sim js _ i)
      by_cases hj : s i < sim i
      · rw [if_pos hj, updFun_same]
      · rw [if_neg hj]
        exact not_lt.mp hj
    · exact ih _ hi2

/-- The floor fold keeps scores inside an interval that contains the
similarities. -/
theorem floorFold_bounds {α : Type} [LinearOrderedField α] (sim : Nat → α)
    (l : List Nat) (s : Nat → α)
    (hs : ∀ i, -1 ≤ s i ∧ s i ≤ 1)
    (hsim : ∀ i, -1 ≤ sim i ∧ sim i ≤ 1) :
    ∀ i, -1 ≤ (l.foldl
      (fun sc j => if sc j < sim j then updFun sc j (sim j) else sc) s) i
      ∧ (l.foldl
      (fun sc j => if sc j < sim j then updFun sc j (sim j) else sc) s) i ≤ 1 := by
  induction l generalizing s with
  | nil => exact hs
  | cons j js ih =>
    simp only [List.foldl_cons]
    refine ih _ ?_
    intro i
    by_cases hj : s j < sim j
    · rw [if_pos hj]
      by_cases hij : i = j
      · subst hij
        rw [updFun_same]
        exact hsim i
      · rw [updFun_other _ _ _ _ hij]
        exact hs i
    · rw [if_neg hj]
      exact hs i

/-- The fallback fold leaves indices it never touches unchanged. -/
theorem setFold_not_mem {α : Type} [LinearOrderedField α] (sim : Nat → α)
    (l : List Nat) (s : Nat → α) (i : Nat) (hi : i ∉ l) :
    (l.foldl (fun sc j => updFun sc j (sim j)) s) i = s i := by
  induction l generalizing s with
  | nil => rfl
  | cons j js ih =>
    simp only [List.foldl_cons]
    rw [ih _ (fun hmem => hi (List.mem_cons_of_mem j hmem))]
    exact updFun_other _ _ _ _ (fun hij => hi (hij ▸ List.mem_cons_self j js))

/-- The fallback fold writes exactly the local similarity at every
processed index. -/
theorem setFold_mem {α : Type} [LinearOrderedField α] (sim : Nat → α)
    (l : List Nat) (s : Nat → α) (i : Nat) (hi : i ∈ l) :
    (l.foldl (fun sc j => updFun sc j (sim j)) s) i = sim i := by
  induction l generalizing s with
  | nil => exact absurd hi (List.not_mem_nil i)
  | cons j js ih =>
    simp only [List.foldl_cons]
    rcases Decidable.em (i ∈ js) with hin | hout
    · exact ih _ hin
    · rcases List.mem_cons.mp hi with rfl | hi2
      · rw [setFold_not_mem sim js _ i hout, updFun_same]
      · exact absurd hi2 hout

theorem setFold_bounds {α : Type} [LinearOrderedField α] (sim : Nat → α)
    (l : List Nat) (s : Nat → α)
    (hs : ∀ i, -1 ≤ s i ∧ s i ≤ 1)
    (hsim : ∀ i, -1 ≤ sim i ∧ sim i ≤ 1) :
    ∀ i, -1 ≤ (l.foldl (fun sc j => updFun sc j (sim j)) s) i
      ∧ (l.foldl (fun sc j => updFun sc j (sim j)) s) i ≤ 1 := by
  induction l generalizing s with
  | nil => exact hs
  | cons j js ih =>
    simp only [List.foldl_cons]
    refine ih _ ?_
    intro i
    by_cases hij : i = j
    · subst hij
      rw [updFun_same]
      exact hsim i
    · rw [updFun_other _ _ _ _ hij]
      exact hs i

theorem pyClamp_bounds {α : Type} [LinearOrderedField α] (x : α) :
    -1 ≤ pyClamp x ∧ pyClamp x ≤ 1 := by
  unfold pyClamp
  constructor
  · exact le_max_right _ _
  · refine max_le ?_ ?_
    · exact min_le_right _ _
    · norm_num

/-! ### Vector lemmas: Cauchy-Schwarz and normalization bounds -/

theorem dotList_nil_left {α : Type} [LinearOrderedField α] (v : List α) :
    dotList ([] : List α) v = 0 := by
  simp [dotList]

theorem dotList_nil_right {α : Type} [LinearOrderedField α] (u : List α) :
    dotList u ([] : List α) = 0 := by
  simp [dotList]

theorem dotList_cons {α : Type} [LinearOrderedField α] (a b : α)
    (u v : List α) : dotList (a :: u) (b :: v) = a * b + dotList u v := by
  simp [dotList]

theorem sqNorm_nil {α : Type} [LinearOrderedField α] :
    sqNorm ([] : List α) = 0 := by
  simp [sqNorm, dotList]

theorem sqNorm_cons {α : Type} [LinearOrderedField α] (a : α) (v : List α) :
    sqNorm (a :: v) = a * a + sqNorm v := by
  simp [sqNorm, dotList_cons]

theorem sqNorm_nonneg {α : Type} [LinearOrderedField α] (v : List α) :
    0 ≤ sqNorm v := by
  induction v with
  | nil => simp [sqNorm_nil]
  | cons a u ih =>
    rw [sqNorm_cons]
    exact add_nonneg (mul_self_nonneg a) ih

/-- Cauchy-Schwarz for the list dot product, squared form. -/
theorem dotList_sq_le {α : Type} [LinearOrderedField α] (u v : List α) :
    (dotList u v) ^ 2 ≤ sqNorm u * sqNorm v := by
  induction u generalizing v with
  | nil =>
    rw [dotList_nil_left, sqNorm_nil]
    simp
  | cons a u ih =>
    cases v with
    | nil =>
      rw [dotList_nil_right, sqNorm_nil]
      simp
    | cons b v =>
      have h := ih v
      have hs := sqNorm_nonneg u
      have ht := sqNorm_nonneg v
      rw [dotList_cons, sqNorm_cons, sqNorm_cons]
      rcases eq_or_lt_of_le ht with ht0 | htpos
      · have hd2 : dotList u v ^ 2 ≤ 0 := by
          calc dotList u v ^ 2 ≤ sqNorm u * sqNorm v := h
            _ = 0 := by rw [← ht0, mul_zero]
        have hd : dotList u v = 0 := by
          have := sq_nonneg (dotList u v)
          have h0 : dotList u v ^ 2 = 0 := le_antisymm hd2 this
          exact pow_eq_zero_iff two_ne_zero |>.mp h0
        rw [hd, ← ht0]
        nlinarith [mul_nonneg hs (mul_self_nonneg b)]
      · nlinarith [sq_nonneg (a * sqNorm v - b * dotList u v),
          mul_nonneg (mul_self_nonneg b) (sub_nonneg.mpr h),
          mul_nonneg ht (sub_nonneg.mpr h), htpos]

/-- The dot product of two vectors of squared norm at most one lies in
the unit interval around zero. -/
theorem dotList_bounds {α : Type} [LinearOrderedField α] (u v : List α)
    (hu : sqNorm u ≤ 1) (hv : sqNorm v ≤ 1) :
    -1 ≤ dotList u v ∧ dotList u v ≤ 1 := by
  have h := dotList_sq_le u v
  have h1 : sqNorm u * sqNorm v ≤ 1 :=
    mul_le_one₀ hu (sqNorm_nonneg v) hv
  have h2 : (dotList u v) ^ 2 ≤ 1 := h.trans h1
  constructor
  · nlinarith [sq_nonneg (dotList u v + 1)]
  · nlinarith [sq_nonneg (dotList u v - 1)]

theorem sqNorm_map_div {α : Type} [LinearOrderedField α] (v : List α)
    (c : α) : sqNorm (v.map (fun x => x / c)) = sqNorm v / (c * c) := by
  induction v with
  | nil => simp [sqNorm_nil]
  | cons a u ih =>
    simp only [List.map_cons, sqNorm_cons, ih]
    rw [div_mul_div_comm, add_div]

/-- L2 normalization with an epsilon floor produces a vector of squared
norm at most one. -/
theorem sqNorm_l2normalize_le_one (v : List ℝ) :
    sqNorm (l2normalize v) ≤ 1 := by
  unfold l2normalize
  set c : ℝ := max (Real.sqrt (sqNorm v)) (1 / 10 ^ 12) with hc
  have hcpos : 0 < c := by
    refine lt_of_lt_of_le ?_ (le_max_right _ _)
    norm_num
  have hsq : Real.sqrt (sqNorm v) ≤ c := le_max_left _ _
  have hvc : sqNorm v ≤ c * c := by
    have h1 : Real.sqrt (sqNorm v) * Real.sqrt (sqNorm v) = sqNorm v :=
      Real.mul_self_sqrt (sqNorm_nonneg v)
    calc sqNorm v = Real.sqrt (sqNorm v) * Real.sqrt (sqNorm v) := h1.symm
      _ ≤ c * c := by
          exact mul_le_mul hsq hsq (Real.sqrt_nonneg _) hcpos.le
  rw [sqNorm_map_div]
  rw [div_le_one (mul_pos hcpos hcpos)]
  exact hvc

/-! ### Pipeline invariants -/

theorem updWrite_bounds {α : Type} [LinearOrderedField α] (f : Nat → α)
    (n : Nat) (c : α) (hf : ∀ i, -1 ≤ f i ∧ f i ≤ 1)
    (hc : -1 ≤ c ∧ c ≤ 1) : ∀ i, -1 ≤ updFun f n c i ∧ updFun f n c i ≤ 1 := by
  intro i
  by_cases hin : i = n
  · subst hin
    rw [updFun_same]
    exact hc
  · rw [updFun_other _ _ _ _ hin]
    exact hf i

/-- One scoring step keeps every recorded score inside the unit
interval: a written score is always clamped. -/
theorem scoreStep_scores_bounds {α : Type} [LinearOrderedField α]
    (cfg : GragConfig α) (idx : GraphIndexData α) (qv : List α) (sscore : α)
    (s : Nat) (st : ScoreState α) (p : Nat × Nat)
    (hst : ∀ i, -1 ≤ st.scores i ∧ st.scores i ≤ 1) :
    ∀ i, -1 ≤ (scoreStep cfg idx qv sscore s st p).scores i
      ∧ (scoreStep cfg idx qv sscore s st p).scores i ≤ 1 := by
  intro i
  simp only [scoreStep]
  split
  · split
    · exact updWrite_bounds st.scores p.1 _ hst (pyClamp_bounds _) i
    · exact hst i
  · split
    · exact updWrite_bounds st.scores p.1 _ hst (pyClamp_bounds _) i
    · exact hst i

theorem foldScoreStep_scores_bounds {α : Type} [LinearOrderedField α]
    (cfg : GragConfig α) (idx : GraphIndexData α) (qv : List α) (sscore : α)
    (s : Nat) (ps : List (Nat × Nat)) (st : ScoreState α)
    (hst : ∀ i, -1 ≤ st.scores i ∧ st.scores i ≤ 1) :
    ∀ i, -1 ≤ (ps.foldl (scoreStep cfg idx qv sscore s) st).scores i
      ∧ (ps.foldl (scoreStep cfg idx qv sscore s) st).scores i ≤ 1 := by
  induction ps generalizing st with
  | nil => exact hst
  | cons p ps ih =>
    simp only [List.foldl_cons]
    exact ih _ (scoreStep_scores_bounds cfg idx qv sscore s st p hst)

theorem processSeed_scores_bounds {α : Type} [LinearOrderedField α]
    (normFn : List α → List α) (cfg : GragConfig α) (idx : GraphIndexData α)
    (qv : List α) (acc : ScoreState α × List Nat) (s : Nat)
    (hst : ∀ i, -1 ≤ acc.1.scores i ∧ acc.1.scores i ≤ 1) :
    ∀ i, -1 ≤ (processSeed normFn cfg idx qv acc s).1.scores i
      ∧ (processSeed normFn cfg idx qv acc s).1.scores i ≤ 1 := by
  simp only [processSeed]
  exact foldScoreStep_scores_bounds cfg idx qv _ s _ acc.1 hst

theorem foldProcessSeed_scores_bounds {α : Type} [LinearOrderedField α]
    (normFn : List α → List α) (cfg : GragConfig α) (idx : GraphIndexData α)
    (qv : List α) (seeds : List Nat) (acc : ScoreState α × List Nat)
    (hst : ∀ i, -1 ≤ acc.1.scores i ∧ acc.1.scores i ≤ 1) :
    ∀ i, -1 ≤ (seeds.foldl (processSeed normFn cfg idx qv) acc).1.scores i
      ∧ (seeds.foldl (processSeed normFn cfg idx qv) acc).1.scores i ≤ 1 := by
  induction seeds generalizing acc with
  | nil => exact hst
  | cons s ss ih =>
    simp only [List.foldl_cons]
    exact ih _ (processSeed_scores_bounds normFn cfg idx qv acc s hst)

theorem candidateState_scores_bounds {α : Type} [LinearOrderedField α]
    (normFn : List α → List α) (cfg : GragConfig α) (idx : GraphIndexData α)
    (qv : List α) (topK : Nat) :
    ∀ i, -1 ≤ (candidateStateOf normFn cfg idx qv topK).1.scores i
      ∧ (candidateStateOf normFn cfg idx qv topK).1.scores i ≤ 1 := by
  unfold candidateStateOf
  refine foldProcessSeed_scores_bounds normFn cfg idx qv _ _ ?_
  intro i
  constructor
  · exact le_refl _
  · norm_num

theorem getD_zero_bounds {α : Type} [LinearOrderedField α] (l : List α)
    (h : ∀ x ∈ l, -1 ≤ x ∧ x ≤ 1) (j : Nat) :
    -1 ≤ l.getD j 0 ∧ l.getD j 0 ≤ 1 := by
  induction l generalizing j with
  | nil =>
    simp only [List.getD_nil]
    norm_num
  | cons x xs ih =>
    cases j with
    | zero =>
      simp only [List.getD_cons_zero]
      exact h x (List.mem_cons_self x xs)
    | succ j =>
      simp only [List.getD_cons_succ]
      exact ih (fun y hy => h y (List.mem_cons_of_mem x hy)) j

/-- Local similarities are bounded when the matrix rows and the query
vector have squared norm at most one. -/
theorem localSimAt_bounds {α : Type} [LinearOrderedField α]
    (idx : GraphIndexData α) (qv : List α)
    (hrows : ∀ row ∈ idx.matrix, sqNorm row ≤ 1) (hq : sqNorm qv ≤ 1) :
    ∀ i, -1 ≤ localSimAt idx qv i ∧ localSimAt idx qv i ≤ 1 := by
  intro i
  unfold localSimAt
  refine getD_zero_bounds _ ?_ i
  intro x hx
  rcases List.mem_map.mp hx with ⟨row, hrow, rfl⟩
  exact dotList_bounds row qv (hrows row hrow) hq

/-- Every final score lies in the unit interval when the local
similarities do. -/
theorem finalScores_bounds {α : Type} [LinearOrderedField α]
    (normFn : List α → List α) (cfg : GragConfig α) (idx : GraphIndexData α)
    (qv : List α) (topK : Nat)
    (hsim : ∀ i, -1 ≤ localSimAt idx qv i ∧ localSimAt idx qv i ≤ 1) :
    ∀ i, -1 ≤ finalScoresOf normFn cfg idx qv topK i
      ∧ finalScoresOf normFn cfg idx qv topK i ≤ 1 := by
  have hfl : ∀ i, -1 ≤ flooredScoresOf normFn cfg idx qv topK i
      ∧ flooredScoresOf normFn cfg idx qv topK i ≤ 1 := by
    unfold flooredScoresOf
    exact floorFold_bounds (localSimAt idx qv) _ _
      (candidateState_scores_bounds normFn cfg idx qv topK) hsim
  unfold finalScoresOf
  split
  · exact setFold_bounds (localSimAt idx qv) _ _ hfl hsim
  · exact hfl

/-- Every candidate surviving the floor and fallback steps scores at
least its local similarity. -/
theorem final_ge_sim {α : Type} [LinearOrderedField α]
    (normFn : List α → List α) (cfg : GragConfig α) (idx : GraphIndexData α)
    (qv : List α) (topK : Nat) (i : Nat)
    (hi : i ∈ finalCandidatesOf normFn cfg idx qv topK) :
    localSimAt idx qv i ≤ finalScoresOf normFn cfg idx qv topK i := by
  unfold finalCandidatesOf at hi
  unfold finalScoresOf
  by_cases hc : (candidatesOf normFn cfg idx qv topK).isEmpty
  · rw [if_pos hc] at hi
    rw [if_pos hc]
    have hi2 : i ∈ seedIndicesOf cfg idx qv topK := by
      rcases (mem_addCandidates _ _ _).mp hi with h | h
      · exact absurd h (List.not_mem_nil i)
      · exact h
    rw [setFold_mem (localSimAt idx qv) _ _ i hi2]
  · rw [if_neg hc] at hi
    rw [if_neg hc]
    unfold flooredScoresOf
    exact floorFold_ge_sim (localSimAt idx qv) _ _ i hi

theorem assembleEntry_score {α : Type} [LinearOrderedField α]
    (normFn : List α → List α) (cfg : GragConfig α) (idx : GraphIndexData α)
    (qv : List α) (topK : Nat) (i : Nat) :
    (assembleEntry normFn cfg idx qv topK i).score
      = finalScoresOf normFn cfg idx qv topK i := rfl

theorem assembleEntry_nodeIdx {α : Type} [LinearOrderedField α]
    (normFn : List α → List α) (cfg : GragConfig α) (idx : GraphIndexData α)
    (qv : List α) (topK : Nat) (i : Nat) :
    (assembleEntry normFn cfg idx qv topK i).nodeIdx = i := rfl

/-- Membership in the truncated ordered candidate list implies membership
in the candidate set. -/
theorem mem_ordered_sub {α : Type} [LinearOrderedField α] [FloorRing α]
    (normFn : List α → List α) (cfg : GragConfig α) (idx : GraphIndexData α)
    (qv : List α) (topK : Nat) (i : Nat)
    (hi : i ∈ orderedCandidatesOf normFn cfg idx qv topK) :
    i ∈ finalCandidatesOf normFn cfg idx qv topK := by
  unfold orderedCandidatesOf at hi
  have h1 := List.take_subset _ _ hi
  exact (mem_sortKeyDesc _ _ _).mp h1

/-- Every returned record comes from the truncated ordered candidate
list, passed the threshold test, and is the assembled record of its
candidate index. -/
theorem mem_retrieveCore {α : Type} [LinearOrderedField α] [FloorRing α]
    (normFn : List α → List α) (cfg : GragConfig α) (idx : GraphIndexData α)
    (qv : List α) (topK : Nat) (threshold : α) (r : ResultEntry α)
    (hr : r ∈ retrieveCore normFn cfg idx qv topK threshold) :
    ∃ i, i ∈ orderedCandidatesOf normFn cfg idx qv topK
      ∧ ¬ (finalScoresOf normFn cfg idx qv topK i < threshold)
      ∧ r = assembleEntry normFn cfg idx qv topK i := by
  unfold retrieveCore at hr
  have h1 := List.take_subset _ _ hr
  have h2 := (mem_sortKeyDesc _ _ _).mp h1
  rcases List.mem_filterMap.mp h2 with ⟨i, hi, hsome⟩
  by_cases hth : finalScoresOf normFn cfg idx qv topK i < threshold
  · rw [if_pos hth] at hsome
    exact absurd hsome (by simp)
  · rw [if_neg hth] at hsome
    exact ⟨i, hi, hth, (Option.some_inj.mp hsome).symm⟩

/-- A successful query embedding pins down the collaborator output and
the resulting normalized vector. -/
theorem embedQuery_ok {α : Type} [LinearOrderedField α]
    (normFn : List α → List α) (out : Option (PyTensor α)) (dD : Nat)
    (qv : List α) (h : embedQuery normFn out dD = Except.ok qv) :
    ∃ t, out = some t ∧ t.shape.length = 1 ∧ t.shape.headD 0 = dD
      ∧ qv = normFn t.data := by
  unfold embedQuery at h
  split at h
  next => exact absurd h (by simp)
  next t =>
    split at h
    next => exact absurd h (by simp)
    next h1 =>
      split at h
      next => exact absurd h (by simp)
      next h2 =>
        exact ⟨t, rfl, not_ne_iff.mp h1, not_ne_iff.mp h2,
          (Except.ok.inj h).symm⟩

/-- A successful retrieval call either hit the empty index or ran the
core pipeline on the normalized embedding of the trimmed query. -/
theorem retrieve_ok_cases {α : Type} [LinearOrderedField α] [FloorRing α]
    (normFn : List α → List α) (embedFn : String → Option (PyTensor α))
    (cfg : GragConfig α) (idx : GraphIndexData α) (q : String) (topK : Nat)
    (threshold : α) (rs : List (ResultEntry α))
    (h : retrieve normFn embedFn cfg idx q topK threshold = Except.ok rs) :
    rs = []
    ∨ (∃ t, embedFn (pyStrip q) = some t
        ∧ rs = retrieveCore normFn cfg idx (normFn t.data) topK threshold
        ∧ queryVecOf normFn embedFn idx q = normFn t.data) := by
  simp only [retrieve] at h
  split at h
  next => exact absurd h (by simp)
  next =>
    split at h
    next => exact Or.inl (Except.ok.inj h).symm
    next =>
      split at h
      next => exact absurd h (by simp)
      next dD hdim =>
        split at h
        next e hq => exact absurd h (by simp)
        next qv hq =>
          rcases embedQuery_ok normFn _ dD qv hq with ⟨t, ht, hs1, hs2, hdata⟩
          refine Or.inr ⟨t, ht, ?_, ?_⟩
          · rw [← hdata]
            exact (Except.ok.inj h).symm
          · simp only [queryVecOf, hdim, hq]
            exact hdata

/-- Case analysis of a retrieval call: either the result list is empty
(any failure path or the empty index), or it is the core pipeline run on
the normalized embedding of the trimmed query. -/
theorem resultsOf_retrieve_eq {α : Type} [LinearOrderedField α] [FloorRing α]
    (normFn : List α → List α) (embedFn : String → Option (PyTensor α))
    (cfg : GragConfig α) (idx : GraphIndexData α) (q : String) (topK : Nat)
    (threshold : α) :
    resultsOf (retrieve normFn embedFn cfg idx q topK threshold) = []
    ∨ (∃ t, embedFn (pyStrip q) = some t
        ∧ resultsOf (retrieve normFn embedFn cfg idx q topK threshold)
            = retrieveCore normFn cfg idx (normFn t.data) topK threshold
        ∧ queryVecOf normFn embedFn idx q = normFn t.data) := by
  rcases hr : retrieve normFn embedFn cfg idx q topK threshold with e | rs
  · exact Or.inl rfl
  · rcases retrieve_ok_cases normFn embedFn cfg idx q topK threshold rs hr with
      h0 | ⟨t, ht, hcore, hqv⟩
    · rw [h0]
      exact Or.inl rfl
    · refine Or.inr ⟨t, ht, ?_, hqv⟩
      rw [← hcore]
      rfl

/-- All records produced by the core pipeline score at least their local
similarity. -/
theorem retrieveCore_floor {α : Type} [LinearOrderedField α] [FloorRing α]
    (normFn : List α → List α) (cfg : GragConfig α) (idx : GraphIndexData α)
    (qv : List α) (topK : Nat) (threshold : α) :
    ∀ r ∈ retrieveCore normFn cfg idx qv topK threshold,
      localSimAt idx qv r.nodeIdx ≤ r.score := by
  intro r hr
  rcases mem_retrieveCore normFn cfg idx qv topK threshold r hr with
    ⟨i, hio, hth, rfl⟩
  rw [assembleEntry_nodeIdx, assembleEntry_score]
  exact final_ge_sim normFn cfg idx qv topK i
    (mem_ordered_sub normFn cfg idx qv topK i hio)

/-- C1: for every query accepted by `retrieve` and every record in the
returned result list, the returned score is at least the local cosine
similarity of that node to the normalized query vector (the dot product
of its matrix row with the query vector the call embedded); graph
context never lowers a returned node below its bare embedding
similarity.  Failure paths return no records, so the property is stated
over the result list of an arbitrary call. -/
theorem C1_similarity_floor {α : Type} [LinearOrderedField α] [FloorRing α]
    (normFn : List α → List α) (embedFn : String → Option (PyTensor α))
    (cfg : GragConfig α) (idx : GraphIndexData α) (q : String) (topK : Nat)
    (threshold : α) :
    List.Forall
      (fun r => localSimAt idx (queryVecOf normFn embedFn idx q) r.nodeIdx
        ≤ r.score)
      (resultsOf (retrieve normFn embedFn cfg idx q topK threshold)) := by
  rw [List.forall_iff_forall_mem]
  intro r hr
  rcases resultsOf_retrieve_eq normFn embedFn cfg idx q topK threshold with
    hnil | ⟨t, ht, heq, hqv⟩
  · rw [hnil] at hr
    exact absurd hr (List.not_mem_nil r)
  · rw [heq] at hr
    rw [hqv]
    exact retrieveCore_floor normFn cfg idx (normFn t.data) topK threshold r hr

/-- Every row of a built embedding matrix is an output of the
normalization function. -/
theorem buildIndex_matrix_mem {α : Type} (normFn : List α → List α)
    (docs : List (StoreDoc α)) :
    ∀ row ∈ (buildIndex normFn docs).matrix, ∃ w, row = normFn w := by
  intro row hrow
  simp only [buildIndex] at hrow
  split at hrow
  · exact absurd hrow (List.not_mem_nil row)
  · rcases List.mem_map.mp hrow with ⟨w, _, rfl⟩
    exact ⟨w, rfl⟩

/-- C7: every score field in the result records returned by `retrieve`
on an index built with exact L2 normalization lies in the closed
interval [-1, 1], for every document collection, configuration, query,
top-k and threshold — including scores produced by the similarity-floor
path, which bypasses the explicit clamp and is bounded because node and
query vectors have norm at most one after normalization. -/
theorem C7_score_bounds (docs : List (StoreDoc ℝ))
    (embedFn : String → Option (PyTensor ℝ)) (cfg : GragConfig ℝ)
    (q : String) (topK : Nat) (threshold : ℝ) :
    List.Forall (fun r => -1 ≤ r.score ∧ r.score ≤ 1)
      (resultsOf (retrieve l2normalize embedFn cfg
        (buildIndex l2normalize docs) q topK threshold)) := by
  rw [List.forall_iff_forall_mem]
  intro r hr
  rcases resultsOf_retrieve_eq l2normalize embedFn cfg
      (buildIndex l2normalize docs) q topK threshold with
    hnil | ⟨t, ht, heq, hqv⟩
  · rw [hnil] at hr
    exact absurd hr (List.not_mem_nil r)
  · rw [heq] at hr
    rcases mem_retrieveCore l2normalize cfg (buildIndex l2normalize docs)
        (l2normalize t.data) topK threshold r hr with ⟨i, hio, hth, rfl⟩
    rw [assembleEntry_score]
    refine finalScores_bounds l2normalize cfg (buildIndex l2normalize docs)
      (l2normalize t.data) topK ?_ i
    refine localSimAt_bounds (buildIndex l2normalize docs) (l2normalize t.data)
      ?_ (sqNorm_l2normalize_le_one t.data)
    intro row hrow
    rcases buildIndex_matrix_mem l2normalize docs row hrow with ⟨w, rfl⟩
    exact sqNorm_l2normalize_le_one w

/-- C3 counterexample: with the default configuration (hop decay 3/4,
subgraph weight 4/10, hops 2 > 0) and subgraph score 0 — a valid value,
reached for instance by a query orthogonal to the subgraph embedding —
raising the hop distance from 0 to 1 does not strictly lower the
contribution of the seed: it is 0 at both distances.  The claim, which
quantifies over every configuration and subgraph score, is therefore
false. -/
theorem C3_counterexample :
    cfgEx.hopDecay < 1
    ∧ ¬ (seedContribution cfgEx (0 : ℚ) 1 < seedContribution cfgEx (0 : ℚ) 0) := by
  constructor
  · norm_num [cfgEx]
  · norm_num [seedContribution]

/-- C3 amended: with hop decay strictly between 0 and 1 and a strictly
positive product of subgraph weight and subgraph score (everything else
held fixed), a strictly larger hop distance strictly lowers that seed
contribution `subgraph_weight * subgraph_score * hop_decay ^ h` to the
combined score. -/
theorem C3_monotone_hop_decay {α : Type} [LinearOrderedField α]
    (cfg : GragConfig α) (sscore : α) (h1 h2 : Nat)
    (hd0 : 0 < cfg.hopDecay) (hd1 : cfg.hopDecay < 1)
    (hw : 0 < cfg.subgraphWeight * sscore) (hh : h1 < h2) :
    seedContribution cfg sscore h2 < seedContribution cfg sscore h1 := by
  unfold seedContribution
  exact mul_lt_mul_of_pos_left (pow_lt_pow_right_of_lt_one₀ hd0 hd1 hh) hw

/-- C3 witness: a concrete strict decrease, at the default configuration
with subgraph score 1/2 and hop distances 0 and 1. -/
theorem C3_monotone_hop_decay_witness :
    seedContribution cfgEx ((1 : ℚ)/2) 1 < seedContribution cfgEx ((1 : ℚ)/2) 0 :=
  C3_monotone_hop_decay cfgEx ((1 : ℚ)/2) 0 1 (by norm_num [cfgEx])
    (by norm_num [cfgEx]) (by norm_num [cfgEx]) (by norm_num)

/-- C5 counterexample: on the three-node index built from `exDocs`, the
claim demands an out-of-range error for the negative index -1; the code
instead performs a plain Python list access and returns the node stored
at the last position. -/
theorem C5_counterexample :
    getNode exIdx (-1) = Except.ok (exIdx.nodes.getD 2 default)
    ∧ (exIdx.nodes.getD 2 default).nodeid = "C" := by
  constructor
  · rfl
  · rfl

/-- C5 amended: `get_node` follows Python list indexing.  It returns the
node stored at position i for 0 ≤ i < node_count, returns the node
stored at position node_count + i for -node_count ≤ i < 0, and fails
with an out-of-range error exactly for i ≥ node_count and for
i < -node_count. -/
theorem C5_get_node_semantics {α : Type} (idx : GraphIndexData α) (i : Int) :
    (0 ≤ i → i < (idx.nodes.length : Int) →
      getNode idx i = Except.ok (idx.nodes.getD i.toNat default))
    ∧ (-(idx.nodes.length : Int) ≤ i → i < 0 →
      getNode idx i
        = Except.ok (idx.nodes.getD ((idx.nodes.length : Int) + i).toNat default))
    ∧ ((idx.nodes.length : Int) ≤ i ∨ i < -(idx.nodes.length : Int) →
      getNode idx i = Except.error "list index out of range") := by
  refine ⟨?_, ?_, ?_⟩
  · intro h0 hN
    unfold getNode
    rw [if_pos ⟨h0, hN⟩]
  · intro hneg h0
    unfold getNode
    rw [if_neg (fun hc => absurd h0 (not_lt.mpr hc.1)), if_pos ⟨hneg, h0⟩]
  · intro hout
    unfold getNode
    rcases hout with hge | hlt
    · have h1 : ¬ (0 ≤ i ∧ i < (idx.nodes.length : Int)) :=
        fun hc => absurd hc.2 (not_lt.mpr hge)
      have h2 : ¬ (-(idx.nodes.length : Int) ≤ i ∧ i < 0) := by
        intro hc
        have : (0 : Int) ≤ i := le_trans (Int.ofNat_nonneg _) hge
        exact absurd hc.2 (not_lt.mpr this)
      rw [if_neg h1, if_neg h2]
    · have h1 : ¬ (0 ≤ i ∧ i < (idx.nodes.length : Int)) := by
        intro hc
        have : i < -(idx.nodes.length : Int) := hlt
        have hn : -(idx.nodes.length : Int) ≤ 0 :=
          neg_nonpos.mpr (Int.ofNat_nonneg _)
        exact absurd hc.1 (not_le.mpr (lt_of_lt_of_le this hn))
      have h2 : ¬ (-(idx.nodes.length : Int) ≤ i ∧ i < 0) :=
        fun hc => absurd hc.1 (not_le.mpr hlt)
      rw [if_neg h1, if_neg h2]

/-- C5 witness: concrete accesses on the three-node index — a valid
position, a valid negative position, and an out-of-range error. -/
theorem C5_get_node_semantics_witness :
    getNode exIdx 1 = Except.ok (exIdx.nodes.getD 1 default)
    ∧ getNode exIdx (-3) = Except.ok (exIdx.nodes.getD 0 default)
    ∧ getNode exIdx 7 = Except.error "list index out of range" := by
  refine ⟨?_, ?_, ?_⟩
  · exact (C5_get_node_semantics exIdx 1).1 (by decide) (by decide)
  · have h := (C5_get_node_semantics exIdx (-3)).2.1 (by decide) (by decide)
    exact h
  · exact (C5_get_node_semantics exIdx 7).2.2 (Or.inl (by decide))

/-- C8: GragConfig construction succeeds exactly when hops ≥ 0,
seed_top_k > 0, candidate_multiplier ≥ 1, node_weight and
subgraph_weight lie in [0,1] and are not both zero, hop_decay lies in
(0,1], and max_context_neighbors ≥ 0; and a successful construction
stores every value exactly as given, so nothing is silently clamped. -/
theorem C8_config_validation {α : Type} [LinearOrderedField α]
    (hops seedTopK : Int) (cm nw sw hd : α) (ttl : Option α) (mcn : Int)
    (dbg : Bool) :
    ((∃ c, mkGragConfig hops seedTopK cm nw sw hd ttl mcn dbg = Except.ok c)
      ↔ (0 ≤ hops ∧ 0 < seedTopK ∧ 1 ≤ cm ∧ (0 ≤ nw ∧ nw ≤ 1)
          ∧ (0 ≤ sw ∧ sw ≤ 1) ∧ ¬ (nw = 0 ∧ sw = 0) ∧ (0 < hd ∧ hd ≤ 1)
          ∧ 0 ≤ mcn))
    ∧ (∀ c, mkGragConfig hops seedTopK cm nw sw hd ttl mcn dbg = Except.ok c →
        c.hops = hops ∧ c.seedTopK = seedTopK ∧ c.candidateMultiplier = cm
        ∧ c.nodeWeight = nw ∧ c.subgraphWeight = sw ∧ c.hopDecay = hd
        ∧ c.cacheTtlSeconds = ttl ∧ c.maxContextNeighbors = mcn
        ∧ c.debugLogging = dbg) := by
  constructor
  · constructor
    · rintro ⟨c, hc⟩
      unfold mkGragConfig at hc
      split at hc
      next => exact absurd hc (by simp)
      next h1 =>
        split at hc
        next => exact absurd hc (by simp)
        next h2 =>
          split at hc
          next => exact absurd hc (by simp)
          next h3 =>
            split at hc
            next => exact absurd hc (by simp)
            next h4 =>
              split at hc
              next => exact absurd hc (by simp)
              next h5 =>
                split at hc
                next => exact absurd hc (by simp)
                next h6 =>
                  split at hc
                  next => exact absurd hc (by simp)
                  next h7 =>
                    split at hc
                    next => exact absurd hc (by simp)
                    next h8 =>
                      have hnw := not_not.mp h4
                      have hsw := not_not.mp h5
                      refine ⟨not_lt.mp h1, not_le.mp h2, not_lt.mp h3,
                        hnw, hsw, ?_, not_not.mp h7, not_lt.mp h8⟩
                      rintro ⟨hz1, hz2⟩
                      exact h6 (by rw [hz1, hz2, add_zero])
    · rintro ⟨h1, h2, h3, h4, h5, h6, h7, h8⟩
      refine Exists.intro
        { hops := hops, seedTopK := seedTopK, candidateMultiplier := cm,
          nodeWeight := nw, subgraphWeight := sw, hopDecay := hd,
          cacheTtlSeconds := ttl, maxContextNeighbors := mcn,
          debugLogging := dbg } ?_
      unfold mkGragConfig
      rw [if_neg (not_lt.mpr h1), if_neg (not_le.mpr h2),
        if_neg (not_lt.mpr h3), if_neg (not_not.mpr h4),
        if_neg (not_not.mpr h5), if_neg ?hsum, if_neg (not_not.mpr h7),
        if_neg (not_lt.mpr h8)]
      case hsum =>
        intro hz
        rcases h4 with ⟨hnw0, _⟩
        rcases h5 with ⟨hsw0, _⟩
        have hnw : nw = 0 := by linarith
        have hsw : sw = 0 := by linarith
        exact h6 ⟨hnw, hsw⟩
  · intro c hc
    unfold mkGragConfig at hc
    split at hc
    next => exact absurd hc (by simp)
    next =>
      split at hc
      next => exact absurd hc (by simp)
      next =>
        split at hc
        next => exact absurd hc (by simp)
        next =>
          split at hc
          next => exact absurd hc (by simp)
          next =>
            split at hc
            next => exact absurd hc (by simp)
            next =>
              split at hc
              next => exact absurd hc (by simp)
              next =>
                split at hc
                next => exact absurd hc (by simp)
                next =>
                  split at hc
                  next => exact absurd hc (by simp)
                  next =>
                    rcases Except.ok.inj hc with rfl
                    exact ⟨rfl, rfl, rfl, rfl, rfl, rfl, rfl, rfl, rfl⟩

/-- C8 witness: the default configuration values pass validation and are
stored unchanged, while a negative hop count is rejected. -/
theorem C8_config_validation_witness :
    (∃ c, mkGragConfig (α := ℚ) 2 24 3 (6/10) (4/10) (3/4) (some 900) 6 false
      = Except.ok c)
    ∧ ¬ (∃ c, mkGragConfig (α := ℚ) (-1) 24 3 (6/10) (4/10) (3/4) (some 900) 6
        false = Except.ok c) := by
  constructor
  · exact (C8_config_validation (α := ℚ) 2 24 3 (6/10) (4/10) (3/4) (some 900)
      6 false).1.mpr (by norm_num)
  · intro hex
    have h := (C8_config_validation (α := ℚ) (-1) 24 3 (6/10) (4/10) (3/4)
      (some 900) 6 false).1.mp hex
    have : (0 : Int) ≤ -1 := h.1
    norm_num at this

/-- A cursor containing only documents without a usable embedding leaves
the build state untouched. -/
theorem buildFold_skips_ineligible {α : Type} (docs : List (StoreDoc α))
    (st : BuildState α)
    (helig : ∀ d ∈ docs, d.embedding = none ∨ d.embedding = some []) :
    docs.foldl buildStep st = st := by
  induction docs generalizing st with
  | nil => rfl
  | cons d ds ih =>
    simp only [List.foldl_cons]
    have hd : buildStep st d = st := by
      rcases helig d (List.mem_cons_self d ds) with h | h
      · simp [buildStep, h]
      · simp [buildStep, h]
    rw [hd]
    exact ih st (fun d2 hd2 => helig d2 (List.mem_cons_of_mem d hd2))

/-- C9: building an index from zero eligible documents produces a valid
empty index, not an error: its statistics report zero nodes and zero
edges, and retrieval against it returns the empty result list for every
accepted (non-empty after trimming) query, whatever the embedding
collaborator does. -/
theorem C9_empty_index {α : Type} [LinearOrderedField α] [FloorRing α]
    (normFn : List α → List α) (docs : List (StoreDoc α))
    (helig : ∀ d ∈ docs, d.embedding = none ∨ d.embedding = some []) :
    (buildIndex normFn docs).nodes.length = 0
    ∧ (buildIndex normFn docs).statsTotalNodes = 0
    ∧ (buildIndex normFn docs).statsTotalEdges = 0
    ∧ ∀ (embedFn : String → Option (PyTensor α)) (cfg : GragConfig α)
        (q : String) (topK : Nat) (threshold : α), pyStrip q ≠ "" →
        retrieve normFn embedFn cfg (buildIndex normFn docs) q topK threshold
          = Except.ok [] := by
  have hidx : buildIndex normFn docs
      = { nodes := [], matrix := [], adj := [], edgeRel := [], embDim := none,
          statsTotalNodes := 0, statsTotalEdges := 0 } := by
    simp [buildIndex, buildFold_skips_ineligible docs _ helig, initBuildState]
  refine ⟨by rw [hidx]; rfl, by rw [hidx], by rw [hidx], ?_⟩
  intro embedFn cfg q topK threshold hq
  rw [hidx]
  simp only [retrieve]
  rw [if_neg hq]
  rfl

/-- C9 witness: the single document without an embedding builds an empty
index whose statistics are zero and that answers a concrete accepted
query with the empty list. -/
theorem C9_empty_index_witness :
    (buildIndex id noEmbDocs).statsTotalNodes = 0
    ∧ (buildIndex id noEmbDocs).statsTotalEdges = 0
    ∧ retrieve id embedFnGood cfgEx (buildIndex id noEmbDocs) "anything" 3 0
        = Except.ok [] := by
  have helig : ∀ d ∈ noEmbDocs, d.embedding = none ∨ d.embedding = some [] := by
    intro d hd
    simp only [noEmbDocs] at hd
    rcases List.mem_singleton.mp hd with rfl
    exact Or.inl rfl
  have h := C9_empty_index (α := ℚ) id noEmbDocs helig
  exact ⟨h.2.1, h.2.2.1, h.2.2.2 embedFnGood cfgEx "anything" 3 0 (by decide)⟩

/-- C4 counterexample: on the index built from `exDocs`, nodes 1 and 2
both have degree 1, and the adjacency list of node 0 is [2, 1] in edge
insertion order.  The stable sort of the code keeps that order, so
`sorted_neighbors(0)` is [2, 1], while the claimed ascending-index
tie-break would give [1, 2]. -/
theorem C4_counterexample :
    sortedNeighbors exIdx 0 = [2, 1]
    ∧ specSortedNeighborsAscTie exIdx 0 = [1, 2]
    ∧ degreeOf exIdx.adj 1 = degreeOf exIdx.adj 2 := by
  refine ⟨by decide, by decide, by decide⟩

/-- C4 amended: `sorted_neighbors` returns a permutation of the
adjacency list of the node, sorted by descending graph degree, with ties
keeping the adjacency (edge-insertion) order — the sort is stable, so
for every degree value the sublist of neighbors with that degree equals
the corresponding sublist of the raw adjacency list.  `describe_relations`
returns summaries of the first min(limit, neighbor count) entries of
`sorted_neighbors` in that same order. -/
theorem C4_sorted_neighbors {α : Type} (idx : GraphIndexData α) (i : Nat)
    (limit k : Nat) :
    (sortedNeighbors idx i).Perm (idx.adj.getD i [])
    ∧ (sortedNeighbors idx i).Pairwise
        (fun a b => degreeOf idx.adj b ≤ degreeOf idx.adj a)
    ∧ (sortedNeighbors idx i).filter (fun j => degreeOf idx.adj j = k)
        = (idx.adj.getD i []).filter (fun j => degreeOf idx.adj j = k)
    ∧ (describeRelations idx i (some limit)).length
        = min limit (idx.adj.getD i []).length
    ∧ (describeRelations idx i (some limit)).map NeighborSummary.nodeid
        = ((sortedNeighbors idx i).take limit).map
            (fun j => (idx.nodes.getD j default).nodeid) := by
  refine ⟨sortKeyDesc_perm _ _, sortKeyDesc_pairwise _ _, sortKeyDesc_filter _ _ _,
    ?_, ?_⟩
  · simp only [describeRelations, List.length_map, List.length_take]
    rw [show (sortedNeighbors idx i).length = (idx.adj.getD i []).length from
      sortKeyDesc_length _ _]
  · simp only [describeRelations, List.map_map]
    rfl

/-- C2 counterexample: with five indexed nodes, top_k = 3 and
candidate_multiplier = 1.2, the code truncates the ordered candidate
list to min(5, int(max(3, 3.6))) = 3 entries (Python int truncates),
while the claimed formula with rounding to the nearest integer demands
min(5, max(3, round(3.6))) = 4 entries — the two caps disagree, so the
claimed truncation count is wrong whenever at least four candidates
exist. -/
theorem C2_counterexample :
    maxCandidatesOf cfgStar 5 3 = 3
    ∧ specRoundCandidateCap cfgStar 5 3 = 4 := by
  constructor
  · have h1 : max ((3 : Nat) : ℚ) (((3 : Nat) : ℚ) * cfgStar.candidateMultiplier)
        = 18/5 := by
      rw [max_eq_right] <;> norm_num [cfgStar]
    unfold maxCandidatesOf pyTrunc
    rw [h1]
    norm_num
    rfl
  · have h2 : round (((3 : Nat) : ℚ) * cfgStar.candidateMultiplier) = 4 := by
      rw [round_eq]
      norm_num [cfgStar]
    unfold specRoundCandidateCap
    rw [h2]
    rfl

/-- C2 amended: before threshold filtering the candidate list is
truncated to its `min(node_count, int(max(top_k, top_k *
candidate_multiplier)))` highest-scoring entries, where Python `int`
truncates toward zero (all of them when fewer candidates exist);
truncation happens before, not after, the threshold filter: every
returned record is drawn from the truncated list and carries a score at
or above the threshold. -/
theorem C2_candidate_truncation {α : Type} [LinearOrderedField α]
    [FloorRing α] (normFn : List α → List α) (cfg : GragConfig α)
    (idx : GraphIndexData α) (qv : List α) (topK : Nat) (threshold : α) :
    maxCandidatesOf cfg idx.nodes.length topK
      = min idx.nodes.length
          (pyTrunc (max (topK : α) ((topK : α) * cfg.candidateMultiplier))).toNat
    ∧ (orderedCandidatesOf normFn cfg idx qv topK).length
      = min (maxCandidatesOf cfg idx.nodes.length topK)
          (finalCandidatesOf normFn cfg idx qv topK).length
    ∧ List.Forall
        (fun r => r.nodeIdx ∈ orderedCandidatesOf normFn cfg idx qv topK
          ∧ threshold ≤ r.score)
        (retrieveCore normFn cfg idx qv topK threshold) := by
  refine ⟨rfl, ?_, ?_⟩
  · unfold orderedCandidatesOf
    rw [List.length_take, sortKeyDesc_length]
  · rw [List.forall_iff_forall_mem]
    intro r hr
    rcases mem_retrieveCore normFn cfg idx qv topK threshold r hr with
      ⟨i, hio, hth, rfl⟩
    rw [assembleEntry_nodeIdx, assembleEntry_score]
    exact ⟨hio, not_lt.mp hth⟩

/-- The bounded breadth-first search always reports the source itself at
hop distance zero. -/
theorem mem_shortestPathLengths_self (adj : List (List Nat)) (s cutoff : Nat) :
    (s, 0) ∈ shortestPathLengths adj s cutoff := by
  unfold shortestPathLengths
  by_cases h : cutoff = 0
  · rw [if_pos h]
    exact List.mem_singleton.mpr rfl
  · rw [if_neg h]
    exact List.mem_cons_self _ _

/-- The per-seed distance map contains the seed at distance zero (the
defensive guard of the source never fires). -/
theorem mem_seedDistances_self {α : Type} (cfg : GragConfig α)
    (idx : GraphIndexData α) (s : Nat) : (s, 0) ∈ seedDistances cfg idx s := by
  simp only [seedDistances]
  split
  · exact List.mem_append_left _
      (mem_shortestPathLengths_self idx.adj s cfg.hops.toNat)
  · exact mem_shortestPathLengths_self idx.adj s cfg.hops.toNat

/-- Processing a seed puts the seed itself into the candidate set. -/
theorem processSeed_self_mem {α : Type} [LinearOrderedField α]
    (normFn : List α → List α) (cfg : GragConfig α) (idx : GraphIndexData α)
    (qv : List α) (acc : ScoreState α × List Nat) (s : Nat) :
    s ∈ (processSeed normFn cfg idx qv acc s).2 := by
  simp only [processSeed]
  refine (mem_addCandidates _ _ _).mpr (Or.inr ?_)
  exact List.mem_map.mpr ⟨(s, 0), mem_seedDistances_self cfg idx s, rfl⟩

/-- The candidate set only grows across the seed loop. -/
theorem foldProcessSeed_cands_mono {α : Type} [LinearOrderedField α]
    (normFn : List α → List α) (cfg : GragConfig α) (idx : GraphIndexData α)
    (qv : List α) (seeds : List Nat) (acc : ScoreState α × List Nat) (x : Nat)
    (hx : x ∈ acc.2) :
    x ∈ (seeds.foldl (processSeed normFn cfg idx qv) acc).2 := by
  induction seeds generalizing acc with
  | nil => exact hx
  | cons s ss ih =>
    simp only [List.foldl_cons]
    refine ih _ ?_
    simp only [processSeed]
    exact (mem_addCandidates _ _ _).mpr (Or.inl hx)

/-- With a non-empty index and a positive seed count, the seed list is
non-empty. -/
theorem seedIndicesOf_ne_nil {α : Type} [LinearOrderedField α]
    (cfg : GragConfig α) (idx : GraphIndexData α) (qv : List α) (topK : Nat)
    (hN : 0 < idx.nodes.length) (hstk : 0 < cfg.seedTopK) :
    seedIndicesOf cfg idx qv topK ≠ [] := by
  have hlen : (seedIndicesOf cfg idx qv topK).length
      = min (min idx.nodes.length (max topK cfg.seedTopK.toNat))
          idx.nodes.length := by
    simp [seedIndicesOf, List.length_take, sortKeyDesc_length]
  have hpos : 0 < (seedIndicesOf cfg idx qv topK).length := by
    rw [hlen]
    omega
  exact List.ne_nil_of_length_pos hpos

/-- C10: for every non-empty index and positive seed count (guaranteed
by config validation), every selected seed appears in its own bounded
neighborhood at hop distance 0, the candidate set accumulated during
seed expansion is non-empty, and the disconnected-case fallback branch
is not taken: the final candidate set and scores are exactly those of
the floor step. -/
theorem C10_seed_neighborhood {α : Type} [LinearOrderedField α]
    (normFn : List α → List α) (cfg : GragConfig α) (idx : GraphIndexData α)
    (qv : List α) (topK : Nat)
    (hN : 0 < idx.nodes.length) (hstk : 0 < cfg.seedTopK) :
    (∀ s ∈ seedIndicesOf cfg idx qv topK,
      (s, 0) ∈ shortestPathLengths idx.adj s cfg.hops.toNat)
    ∧ candidatesOf normFn cfg idx qv topK ≠ []
    ∧ finalCandidatesOf normFn cfg idx qv topK
        = candidatesOf normFn cfg idx qv topK
    ∧ finalScoresOf normFn cfg idx qv topK
        = flooredScoresOf normFn cfg idx qv topK := by
  have hcand : candidatesOf normFn cfg idx qv topK ≠ [] := by
    rcases hseeds : seedIndicesOf cfg idx qv topK with _ | ⟨s, rest⟩
    · exact absurd hseeds (seedIndicesOf_ne_nil cfg idx qv topK hN hstk)
    · have hmem : s ∈ candidatesOf normFn cfg idx qv topK := by
        unfold candidatesOf candidateStateOf
        rw [hseeds]
        simp only [List.foldl_cons]
        exact foldProcessSeed_cands_mono normFn cfg idx qv rest _ s
          (processSeed_self_mem normFn cfg idx qv _ s)
      intro hnil
      rw [hnil] at hmem
      exact List.not_mem_nil s hmem
  have hne : ¬ (candidatesOf normFn cfg idx qv topK).isEmpty := by
    simp only [List.isEmpty_iff]
    exact hcand
  refine ⟨?_, hcand, ?_, ?_⟩
  · intro s _
    exact mem_shortestPathLengths_self idx.adj s cfg.hops.toNat
  · unfold finalCandidatesOf
    rw [if_neg hne]
  · unfold finalScoresOf
    rw [if_neg hne]

/-- C10 witness: on the concrete three-node index with the default
configuration, the candidate set is non-empty and the fallback branch is
not taken. -/
theorem C10_seed_neighborhood_witness :
    candidatesOf id cfgEx exIdx [1, 0, 0] 3 ≠ []
    ∧ finalCandidatesOf id cfgEx exIdx [1, 0, 0] 3
        = candidatesOf id cfgEx exIdx [1, 0, 0] 3 := by
  have h := C10_seed_neighborhood id cfgEx exIdx [1, 0, 0] 3
    (by decide) (by decide)
  exact ⟨h.2.1, h.2.2.1⟩

/-- With a non-empty trimmed query, a non-empty index and a known
dimensionality, `retrieve` reduces to the embedding call followed by the
core pipeline. -/
theorem retrieve_reduces {α : Type} [LinearOrderedField α] [FloorRing α]
    (normFn : List α → List α) (embedFn : String → Option (PyTensor α))
    (cfg : GragConfig α) (idx : GraphIndexData α) (q : String) (topK : Nat)
    (threshold : α) (dD : Nat) (hq : pyStrip q ≠ "")
    (hN : idx.nodes.length ≠ 0) (hdim : idx.embDim = some dD) :
    retrieve normFn embedFn cfg idx q topK threshold
      = (match embedQuery normFn (embedFn (pyStrip q)) dD with
        | Except.error e => Except.error e
        | Except.ok qv =>
            Except.ok (retrieveCore normFn cfg idx qv topK threshold)) := by
  simp only [retrieve]
  rw [if_neg hq, if_neg hN, hdim]

theorem embedQuery_none_eq {α : Type} [LinearOrderedField α]
    (normFn : List α → List α) (dD : Nat) :
    embedQuery normFn (none : Option (PyTensor α)) dD
      = Except.error "Embedding function returned None" := rfl

theorem embedQuery_badShape_eq {α : Type} [LinearOrderedField α]
    (normFn : List α → List α) (t : PyTensor α) (dD : Nat)
    (h : t.shape.length ≠ 1) :
    embedQuery normFn (some t) dD
      = Except.error "Query embedding must be one-dimensional" := by
  show (if t.shape.length ≠ 1 then
      (Except.error "Query embedding must be one-dimensional"
        : Except String (List α))
    else if t.shape.headD 0 ≠ dD then
      Except.error "Query embedding dimension does not match index dimension"
    else Except.ok (normFn t.data))
    = Except.error "Query embedding must be one-dimensional"
  rw [if_pos h]

theorem embedQuery_badDim_eq {α : Type} [LinearOrderedField α]
    (normFn : List α → List α) (t : PyTensor α) (dD : Nat)
    (h1 : t.shape.length = 1) (h2 : t.shape.headD 0 ≠ dD) :
    embedQuery normFn (some t) dD
      = Except.error
          "Query embedding dimension does not match index dimension" := by
  show (if t.shape.length ≠ 1 then
      (Except.error "Query embedding must be one-dimensional"
        : Except String (List α))
    else if t.shape.headD 0 ≠ dD then
      Except.error "Query embedding dimension does not match index dimension"
    else Except.ok (normFn t.data))
    = Except.error "Query embedding dimension does not match index dimension"
  rw [if_neg (not_ne_iff.mpr h1), if_pos h2]

/-- Every step of the build loop either skips the document or accepts it
and records an established dimensionality. -/
theorem buildStep_cases {α : Type} (st : BuildState α) (d : StoreDoc α) :
    buildStep st d = st
    ∨ ∃ v dim, buildStep st d = acceptDoc st d v (some dim) := by
  unfold buildStep
  split
  next => exact Or.inl rfl
  next v heq =>
    split
    · exact Or.inl rfl
    · split
      next => exact Or.inr ⟨v, v.length, rfl⟩
      next dD heqD =>
        split
        · exact Or.inl rfl
        · exact Or.inr ⟨v, dD, rfl⟩

/-- Build invariant: a state with nodes always has an established
embedding dimensionality. -/
theorem buildFold_embDim_inv {α : Type} (docs : List (StoreDoc α))
    (st : BuildState α)
    (hinv : st.nodes = [] ∨ ∃ d0, st.embDim = some d0) :
    (docs.foldl buildStep st).nodes = []
    ∨ ∃ d0, (docs.foldl buildStep st).embDim = some d0 := by
  induction docs generalizing st with
  | nil => exact hinv
  | cons d ds ih =>
    simp only [List.foldl_cons]
    refine ih _ ?_
    rcases buildStep_cases st d with heq | ⟨v, dim, heq⟩
    · rw [heq]
      exact hinv
    · rw [heq]
      exact Or.inr ⟨dim, rfl⟩

/-- A non-empty built index always has an established dimensionality, so
the dimensionality hypothesis in the error-path theorem below covers
every non-empty index the build process can produce. -/
theorem buildIndex_embDim_some {α : Type} (normFn : List α → List α)
    (docs : List (StoreDoc α))
    (hN : (buildIndex normFn docs).nodes.length ≠ 0) :
    ∃ dD, (buildIndex normFn docs).embDim = some dD := by
  have hinv := buildFold_embDim_inv docs (initBuildState (α := α)) (Or.inl rfl)
  by_cases h : (docs.foldl buildStep (initBuildState (α := α))).nodes = []
  · exfalso
    apply hN
    simp only [buildIndex]
    rw [if_pos h]
    rfl
  · rcases hinv with h0 | ⟨d0, hd0⟩
    · exact absurd h0 h
    · refine ⟨d0, ?_⟩
      simp only [buildIndex]
      rw [if_neg h]
      exact hd0

/-- C6: `retrieve` fails with an invalid-argument error whenever the
query is empty after trimming; and, for a non-empty index of known
dimensionality D (every non-empty built index has one, by the last
conjunct), fails with an error whenever the embedding collaborator
returns nothing, returns a tensor that is not one-dimensional, or
returns a vector whose length differs from D.  Each of these paths
produces an error, never a result list. -/
theorem C6_error_paths {α : Type} [LinearOrderedField α] [FloorRing α]
    (normFn : List α → List α) (embedFn : String → Option (PyTensor α))
    (cfg : GragConfig α) (idx : GraphIndexData α) (q : String) (topK : Nat)
    (threshold : α) (dD : Nat) :
    (pyStrip q = "" →
      retrieve normFn embedFn cfg idx q topK threshold
        = Except.error "Query must be a non-empty string")
    ∧ (pyStrip q ≠ "" → idx.nodes.length ≠ 0 → idx.embDim = some dD →
      embedFn (pyStrip q) = none →
      retrieve normFn embedFn cfg idx q topK threshold
        = Except.error "Embedding function returned None")
    ∧ (∀ t, pyStrip q ≠ "" → idx.nodes.length ≠ 0 → idx.embDim = some dD →
      embedFn (pyStrip q) = some t → t.shape.length ≠ 1 →
      retrieve normFn embedFn cfg idx q topK threshold
        = Except.error "Query embedding must be one-dimensional")
    ∧ (∀ t, pyStrip q ≠ "" → idx.nodes.length ≠ 0 → idx.embDim = some dD →
      embedFn (pyStrip q) = some t → t.shape.length = 1 →
      t.shape.headD 0 ≠ dD →
      retrieve normFn embedFn cfg idx q topK threshold
        = Except.error
            "Query embedding dimension does not match index dimension")
    ∧ (∀ docs : List (StoreDoc α),
      (buildIndex normFn docs).nodes.length ≠ 0 →
      ∃ dD0, (buildIndex normFn docs).embDim = some dD0) := by
  refine ⟨?_, ?_, ?_, ?_, fun docs => buildIndex_embDim_some normFn docs⟩
  · intro hq
    simp only [retrieve]
    rw [if_pos hq]
  · intro hq hN hdim hemb
    rw [retrieve_reduces normFn embedFn cfg idx q topK threshold dD hq hN hdim,
      hemb, embedQuery_none_eq]
  · intro t hq hN hdim hemb hsh
    rw [retrieve_reduces normFn embedFn cfg idx q topK threshold dD hq hN hdim,
      hemb, embedQuery_badShape_eq normFn t dD hsh]
  · intro t hq hN hdim hemb hsh hd
    rw [retrieve_reduces normFn embedFn cfg idx q topK threshold dD hq hN hdim,
      hemb, embedQuery_badDim_eq normFn t dD hsh hd]

/-- C6 witness: the four failure modes on the concrete three-node index
of dimensionality 3 — whitespace query, collaborator returning nothing,
a two-dimensional tensor, and a vector of length 2. -/
theorem C6_error_paths_witness :
    retrieve id embedFnGood cfgEx exIdx "   " 3 0
      = Except.error "Query must be a non-empty string"
    ∧ retrieve id embedFnNone cfgEx exIdx "q" 3 0
      = Except.error "Embedding function returned None"
    ∧ retrieve id embedFnBadShape cfgEx exIdx "q" 3 0
      = Except.error "Query embedding must be one-dimensional"
    ∧ retrieve id embedFnWrongDim cfgEx exIdx "q" 3 0
      = Except.error
          "Query embedding dimension does not match index dimension" := by
  refine ⟨?_, ?_, ?_, ?_⟩
  · exact (C6_error_paths id embedFnGood cfgEx exIdx "   " 3 0 3).1 (by decide)
  · exact (C6_error_paths id embedFnNone cfgEx exIdx "q" 3 0 3).2.1
      (by decide) (by decide) (by decide) rfl
  · exact (C6_error_paths id embedFnBadShape cfgEx exIdx "q" 3 0 3).2.2.1
      { shape := [1, 2], data := [1, 0] }
      (by decide) (by decide) (by decide) rfl (by decide)
  · exact (C6_error_paths id embedFnWrongDim cfgEx exIdx "q" 3 0 3).2.2.2.1
      { shape := [2], data := [1, 0] }
      (by decide) (by decide) (by decide) rfl (by decide) (by decide)

end Grag
